import Mathlib

/-!
Verification of the koku-kaizora timetable generation engine
(`app/core/timetable_engine.py`, `app/utils/data_helpers.py`,
`app/utils/validators.py`).

Modelling conventions:
* Times of day are minutes since midnight (plain `Nat`); the Python
  code manipulates `datetime.time` values whose only operations here are
  comparison and adding 60 minutes via a `datetime` round-trip.  The
  round-trip wraps at midnight; all times validated by the program lie in
  working hours [08:00,16:00) = [480,960), far from midnight, and the
  theorems about the slot tiler are stated on the wrap-free domain
  (all window ends at or below 23:00 = 1380 minutes).
* Dates are day ordinals (plain `Nat`) with day 0 falling on a Monday,
  so Python `date.weekday()` is `d % 7` with Monday = 0, and
  `d + timedelta(days=k)` is `d + k`.
* Python dicts are insertion-ordered association lists; `defaultdict(int)`
  counters are total functions with default 0; `defaultdict(list)` grouping
  preserves first-insertion key order and per-key append order.
* Floats in the source (`priority score`, `fairness_score`,
  `capacity * 0.8`) only ever hold integer or small rational values; they
  are modelled with exact `Int` / rational arithmetic.
* Python `list.sort` is a stable sort; a stable sort's output is uniquely
  determined by the key order and the input order, so it is modelled by a
  stable insertion sort with the same key.
-/

/-- One session-demand unit, from `SessionSlot` in `timetable_engine.py`. -/
structure SessionSlot where
  child_id : Int
  child_name : String
  department_id : Int
  department_name : String
  sessions_needed : Nat
  day_preferences : List String
  time_preferences : List (Nat × Nat)
deriving DecidableEq, Repr, Inhabited

/-- Therapist supply state, from `TherapistSlot` in `timetable_engine.py`.
`availability` is the insertion-ordered day map; `fairness_score` is a float
in the source but only ever holds integers (sums of loads plus unit
increments). -/
structure TherapistSlot where
  therapist_id : Int
  therapist_name : String
  department_id : Int
  department_name : String
  availability : List (String × List (Nat × Nat))
  current_load : Int
  fairness_score : Int
deriving DecidableEq, Repr, Inhabited

/-- A committed allocation, the `best_allocation` dict built in
`_find_best_time_slot`. -/
structure Assignment where
  child_id : Int
  therapist_id : Int
  department_id : Int
  date : Nat
  start_time : Nat
  end_time : Nat
  week_starting : Nat
  priority_score : Int
deriving DecidableEq, Repr, Inhabited

/-- Result record, from `GenerationResult` in `timetable_engine.py`;
`sessions` is `timetable_data['sessions']` (empty dict modelled as `[]`). -/
structure GenerationResult where
  success : Bool
  sessions_created : Nat
  errors : List String := []
  warnings : List String := []
  sessions : List Assignment := []
deriving DecidableEq, Repr, Inhabited

/-- A child department need row, as returned by
`get_active_children_with_needs`.  `sessions_per_week` is an `Int` because
the database column is a plain integer; `range(n)` on a negative value
iterates zero times, matched by `Int.toNat`. -/
structure DeptNeed where
  department_id : Int
  department_name : String
  sessions_per_week : Int
deriving DecidableEq, Repr, Inhabited

/-- One availability row (child or therapist). -/
structure AvailEntry where
  day_of_week : String
  start_time : Nat
  end_time : Nat
deriving DecidableEq, Repr, Inhabited

/-- A fetched child record. -/
structure ChildData where
  id : Int
  name : String
  departments : List DeptNeed
  availability : List AvailEntry
deriving DecidableEq, Repr, Inhabited

/-- A fetched therapist record (availability already filtered to
`is_available` rows by the repository query). -/
structure TherapistData where
  id : Int
  name : String
  department_id : Int
  department_name : String
  availability : List AvailEntry
deriving DecidableEq, Repr, Inhabited

/-- Day-name to offset map of `_get_date_for_day`, with its `.get(day, 0)`
default. -/
def day_offset (day_name : String) : Nat :=
  if day_name = "Monday" then 0
  else if day_name = "Tuesday" then 1
  else if day_name = "Wednesday" then 2
  else if day_name = "Thursday" then 3
  else if day_name = "Friday" then 4
  else if day_name = "Saturday" then 5
  else 0

/-- `_get_date_for_day`: convert a day name to the date within the week. -/
def get_date_for_day (week_starting : Nat) (day_name : String) : Nat :=
  week_starting + day_offset day_name

/-- The `while current_time < overlap_end` tiling loop inside
`_find_overlapping_slots`, with an explicit iteration budget so that it is
structurally recursive (hence kernel-evaluable): the cursor advances by 60
minutes per iteration, so any budget of at least `e - cur` steps runs the
loop to completion. -/
def tile_go : Nat → Nat → Nat → List (Nat × Nat)
  | 0, _, _ => []
  | n + 1, cur, e =>
    if cur < e then
      (if cur + 60 ≤ e then [(cur, cur + 60)] else []) ++ tile_go n (cur + 60) e
    else []

/-- Emit consecutive 60-minute slots from `cur`, keeping a slot only when
its end does not pass `e` (the tiling loop run to completion). -/
def tile_slots (cur e : Nat) : List (Nat × Nat) :=
  tile_go (e - cur) cur e

/-- `_find_overlapping_slots`: for each (therapist window, child window)
pair, tile the non-empty part of their intersection. -/
def find_overlapping_slots (therapist_times child_times : List (Nat × Nat)) :
    List (Nat × Nat) :=
  therapist_times.flatMap fun tw =>
    child_times.flatMap fun cw =>
      let overlap_start := max tw.1 cw.1
      let overlap_end := min tw.2 cw.2
      if overlap_start < overlap_end then tile_slots overlap_start overlap_end else []

/-- `_is_time_slot_free`: the MVP placeholder that always answers true. -/
def is_time_slot_free (_therapist_id : Int) (_session_date : Nat)
    (_time_slot : Nat × Nat) : Bool :=
  true

/-- Daily counters (`defaultdict(lambda: defaultdict(int))`): total
functions with default 0. -/
abbrev DailyCount := Int → Nat → Nat

/-- `_calculate_slot_priority`, with exact integer arithmetic in place of
the source floats (every summand is an integer). -/
def calculate_slot_priority (session_slot : SessionSlot) (therapist : TherapistSlot)
    (day : String) (time_slot : Nat × Nat) (session_date : Nat)
    (child_daily_sessions : DailyCount) (therapist_daily_sessions : DailyCount) : Int :=
  let priority : Int := 100
  let priority := priority + (10 - therapist.current_load) * 2
  let morning_bonus : Int := if time_slot.1 < 720 then 5 else 0
  let priority := priority + morning_bonus
  let child_sessions_today : Int := child_daily_sessions session_slot.child_id session_date
  let day_distribution_bonus : Int := max 0 (3 - child_sessions_today)
  let priority := priority + day_distribution_bonus
  let therapist_sessions_today : Int := therapist_daily_sessions therapist.therapist_id session_date
  let workload_bonus : Int := max 0 (6 - therapist_sessions_today)
  priority + workload_bonus

/-- First-match association lookup (Python dict access by key). -/
def dict_find {β : Type} (k : String) : List (String × β) → Option β
  | [] => none
  | (k', v) :: rest => if k' = k then some v else dict_find k rest

/-- The candidate dict appended to `best_options` in `_find_best_time_slot`. -/
def mk_candidate (session_slot : SessionSlot) (therapist : TherapistSlot) (day : String)
    (time_slot : Nat × Nat) (session_date week_starting : Nat)
    (cd td : DailyCount) : Assignment :=
  { child_id := session_slot.child_id
    therapist_id := therapist.therapist_id
    department_id := session_slot.department_id
    date := session_date
    start_time := time_slot.1
    end_time := time_slot.2
    week_starting := week_starting
    priority_score := calculate_slot_priority session_slot therapist day time_slot session_date cd td }

/-- The `best_options` list collected by the nested loops of
`_find_best_time_slot`, in loop encounter order: days in the child's
preference order, then the (already fairness-sorted) therapists, then the
overlap slots. -/
def candidate_options (session_slot : SessionSlot) (available_therapists : List TherapistSlot)
    (week_starting : Nat) (cd td : DailyCount) : List Assignment :=
  session_slot.day_preferences.flatMap fun day =>
    let session_date := get_date_for_day week_starting day
    if 5 ≤ cd session_slot.child_id session_date then []
    else
      available_therapists.flatMap fun therapist =>
        match dict_find day therapist.availability with
        | none => []
        | some therapist_times =>
          if 8 ≤ td therapist.therapist_id session_date then []
          else
            (find_overlapping_slots therapist_times session_slot.time_preferences).filterMap
              fun time_slot =>
                if is_time_slot_free therapist.therapist_id session_date time_slot then
                  some (mk_candidate session_slot therapist day time_slot session_date
                    week_starting cd td)
                else none

/-- One step of the stable descending insertion modelling
`best_options.sort(key=priority_score, reverse=True)`: an element moves in
front of the existing list exactly when its score is at least the head's,
so earlier-encountered candidates stay in front of equal-score ones. -/
def insert_desc (x : Assignment) : List Assignment → List Assignment
  | [] => [x]
  | y :: ys =>
    if y.priority_score ≤ x.priority_score then x :: y :: ys else y :: insert_desc x ys

/-- Stable sort of candidates by descending priority score (extensionally
equal to Python's stable `list.sort(..., reverse=True)`). -/
def sort_by_priority_desc : List Assignment → List Assignment
  | [] => []
  | x :: xs => insert_desc x (sort_by_priority_desc xs)

/-- `_find_best_time_slot`: collect all candidates, stably sort by
descending priority, return the first (or `None`). -/
def find_best_time_slot (session_slot : SessionSlot) (available_therapists : List TherapistSlot)
    (week_starting : Nat) (cd td : DailyCount) : Option Assignment :=
  (sort_by_priority_desc (candidate_options session_slot available_therapists week_starting cd td)).head?

/-- Append an index to the bucket of a department, creating the bucket on
first use (`defaultdict(list)` append in the grouping loop). -/
def bucket_append (k : Int) (v : Nat) : List (Int × List Nat) → List (Int × List Nat)
  | [] => [(k, [v])]
  | (k', vs) :: rest =>
    if k' = k then (k', vs ++ [v]) :: rest else (k', vs) :: bucket_append k v rest

/-- First-match bucket lookup by department id. -/
def bucket_find (k : Int) : List (Int × List Nat) → Option (List Nat)
  | [] => none
  | (k', v) :: rest => if k' = k then some v else bucket_find k rest

/-- Replace the bucket of an existing department key (the in-place sort of
a dict-stored list in `_allocate_sessions_intelligently`). -/
def bucket_update (k : Int) (v : List Nat) : List (Int × List Nat) → List (Int × List Nat)
  | [] => [(k, v)]
  | (k', v') :: rest =>
    if k' = k then (k', v) :: rest else (k', v') :: bucket_update k v rest

/-- `therapists_by_dept`: group therapist positions by department id in
encounter order.  Buckets hold positions into the run's therapist store so
that later in-place mutation of therapist objects is shared, as the Python
dict shares object references. -/
def group_by_dept (therapist_slots : List TherapistSlot) : List (Int × List Nat) :=
  therapist_slots.enum.foldl (fun acc p => bucket_append p.2.department_id p.1 acc) []

/-- Python tuple order `(fairness_score, current_load) ≤ ...` used as the
sort key for therapists. -/
def fairness_key_le (a b : TherapistSlot) : Bool :=
  decide (a.fairness_score < b.fairness_score ∨
    (a.fairness_score = b.fairness_score ∧ a.current_load ≤ b.current_load))

/-- Stable ascending insertion for therapist positions under the fairness
key of the store entries (an out-of-range position reads the default
therapist, which can never be selected because its availability is empty). -/
def insert_by_fairness (store : List TherapistSlot) (i : Nat) : List Nat → List Nat
  | [] => [i]
  | j :: js =>
    if fairness_key_le (store.getD i default) (store.getD j default) then i :: j :: js
    else j :: insert_by_fairness store i js

/-- Stable sort modelling `available_therapists.sort(key=(fairness_score,
current_load))`. -/
def sort_by_fairness (store : List TherapistSlot) : List Nat → List Nat
  | [] => []
  | i :: is' => insert_by_fairness store i (sort_by_fairness store is')

/-- The `for therapist in therapist_slots: if id matches: bump; break` load
update after a commitment: bump the first store entry with the given id. -/
def update_first_by_id (tid : Int) : List TherapistSlot → List TherapistSlot
  | [] => []
  | t :: ts =>
    if t.therapist_id = tid then
      { t with current_load := t.current_load + 1, fairness_score := t.fairness_score + 1 } :: ts
    else t :: update_first_by_id tid ts

/-- Mutable state of one allocation run: the therapist store (objects
mutated in place in the source), the department buckets (list order mutated
by the in-place sort), both daily counters, and the two output lists. -/
structure AllocState where
  store : List TherapistSlot
  deptOrder : List (Int × List Nat)
  child_daily : DailyCount
  therapist_daily : DailyCount
  allocated : List Assignment
  unallocated : List String

/-- The body of the allocation loop in `_allocate_sessions_intelligently`
for one session demand. -/
def alloc_step (week_starting : Nat) (st : AllocState) (s : SessionSlot) : AllocState :=
  let idxs := (bucket_find s.department_id st.deptOrder).getD []
  if idxs.isEmpty then
    { st with unallocated := st.unallocated ++ ["No therapists available for " ++ s.department_name] }
  else
    let sorted := sort_by_fairness st.store idxs
    let st' := { st with deptOrder := bucket_update s.department_id sorted st.deptOrder }
    let available := sorted.map fun i => st'.store.getD i default
    match find_best_time_slot s available week_starting st'.child_daily st'.therapist_daily with
    | some best =>
      { st' with
        allocated := st'.allocated ++ [best]
        child_daily := fun c d =>
          if c = s.child_id ∧ d = best.date then st'.child_daily c d + 1 else st'.child_daily c d
        therapist_daily := fun t d =>
          if t = best.therapist_id ∧ d = best.date then st'.therapist_daily t d + 1
          else st'.therapist_daily t d
        store := update_first_by_id best.therapist_id st'.store }
    | none =>
      { st' with
        unallocated := st'.unallocated ++
          ["Could not allocate session for " ++ s.child_name ++ " in " ++ s.department_name] }

/-- The allocation loop over all session demands. -/
def alloc_loop (week_starting : Nat) : List SessionSlot → AllocState → AllocState
  | [], st => st
  | s :: rest, st => alloc_loop week_starting rest (alloc_step week_starting st s)

/-- `_allocate_sessions_intelligently`: run the loop from the empty state
and package the result (always `success=True`; unallocated messages become
the warnings). -/
def allocate_sessions_intelligently (session_slots : List SessionSlot)
    (therapist_slots : List TherapistSlot) (week_starting : Nat) : GenerationResult :=
  let st0 : AllocState :=
    { store := therapist_slots
      deptOrder := group_by_dept therapist_slots
      child_daily := fun _ _ => 0
      therapist_daily := fun _ _ => 0
      allocated := []
      unallocated := [] }
  let st := alloc_loop week_starting session_slots st0
  { success := true
    sessions_created := st.allocated.length
    errors := []
    warnings := st.unallocated
    sessions := st.allocated }

/-- `_validate_generation_request`, with the repository's
`check_existing_sessions` answer passed in as `existing_sessions`.  Dates
are day ordinals with Monday at residue 0 modulo 7. -/
def validate_generation_request (existing_sessions : Bool) (week_starting : Nat)
    (active_children active_therapists : List Int) (regenerate_existing : Bool) :
    GenerationResult :=
  if ¬ regenerate_existing ∧ existing_sessions then
    { success := false, sessions_created := 0,
      errors := ["Sessions already exist for this week. Use regenerate_existing=true to overwrite."] }
  else if active_children.isEmpty then
    { success := false, sessions_created := 0, errors := ["No children selected"] }
  else if active_therapists.isEmpty then
    { success := false, sessions_created := 0, errors := ["No therapists selected"] }
  else if week_starting % 7 ≠ 0 then
    { success := false, sessions_created := 0, errors := ["Week must start on Monday"] }
  else
    { success := true, sessions_created := 0 }

/-- `_prepare_session_slots` before its final `random.shuffle`: expand each
(child, department need) pair into `sessions_per_week` demand units.  The
day and time preference lists are taken from the child's whole availability
list, with no per-day filtering of the time windows.  The shuffle draws on
the process-global PRNG and is modelled as an ambient permutation applied
to this list. -/
def expand_session_slots (children_data : List ChildData) : List SessionSlot :=
  children_data.flatMap fun child =>
    child.departments.flatMap fun dept =>
      List.replicate dept.sessions_per_week.toNat
        { child_id := child.id
          child_name := child.name
          department_id := dept.department_id
          department_name := dept.department_name
          sessions_needed := 1
          day_preferences := child.availability.map (·.day_of_week)
          time_preferences := child.availability.map fun a => (a.start_time, a.end_time) }

/-- Day-keyed availability append used by `_prepare_therapist_slots`. -/
def day_bucket_append (k : String) (v : Nat × Nat) :
    List (String × List (Nat × Nat)) → List (String × List (Nat × Nat))
  | [] => [(k, [v])]
  | (k', vs) :: rest =>
    if k' = k then (k', vs ++ [v]) :: rest else (k', vs) :: day_bucket_append k v rest

/-- Group a therapist's availability rows by day (`defaultdict(list)`,
insertion-ordered). -/
def group_avail_by_day (avail : List AvailEntry) : List (String × List (Nat × Nat)) :=
  avail.foldl (fun acc a => day_bucket_append a.day_of_week (a.start_time, a.end_time) acc) []

/-- `_prepare_therapist_slots`; the previous and current week load dicts are
total functions with the `dict.get(id, 0)` default folded in. -/
def prepare_therapist_slots (therapists_data : List TherapistData)
    (previous_loads current_loads : Int → Nat) : List TherapistSlot :=
  therapists_data.map fun therapist =>
    { therapist_id := therapist.id
      therapist_name := therapist.name
      department_id := therapist.department_id
      department_name := therapist.department_name
      availability := group_avail_by_day therapist.availability
      current_load := current_loads therapist.id
      fairness_score := (previous_loads therapist.id : Int) + current_loads therapist.id }

/-- `TimetableValidator._is_valid_day`. -/
def is_valid_day (day : String) : Bool :=
  day = "Monday" ∨ day = "Tuesday" ∨ day = "Wednesday" ∨ day = "Thursday" ∨
    day = "Friday" ∨ day = "Saturday"

/-- `TimetableValidator._is_valid_time_range` (string-coercion branches do
not arise for repository data, which is already time-valued): start before
end, inside working hours [480,960], duration between 30 and 120 minutes. -/
def is_valid_time_range (start_time end_time : Nat) : Bool :=
  if end_time ≤ start_time then false
  else if start_time < 480 ∨ 960 < end_time then false
  else 30 ≤ end_time - start_time ∧ end_time - start_time ≤ 120

/-- Error lines contributed by one child in
`TimetableValidator.validate_child_data` (the `continue` statements skip the
later checks of that child).  Quoting punctuation of the source messages is
elided. -/
def child_data_errors (child : ChildData) : List String :=
  if child.departments.isEmpty then [child.name ++ ": No departments assigned"]
  else if child.availability.isEmpty then [child.name ++ ": No availability schedule set"]
  else
    let total_weekly_sessions := (child.departments.map (·.sessions_per_week)).sum
    (if 25 < total_weekly_sessions then
      [child.name ++ ": Too many weekly sessions required (" ++ toString total_weekly_sessions ++ ")"]
    else []) ++
    child.availability.flatMap fun avail =>
      (if ¬ is_valid_day avail.day_of_week then
        [child.name ++ ": Invalid day " ++ avail.day_of_week]
      else []) ++
      (if ¬ is_valid_time_range avail.start_time avail.end_time then
        [child.name ++ ": Invalid time range " ++ toString avail.start_time ++ "-" ++
          toString avail.end_time]
      else [])

/-- `TimetableValidator.validate_child_data`. -/
def validate_child_data (children_data : List ChildData) : Bool × List String :=
  let errors := children_data.flatMap child_data_errors
  (errors.isEmpty, errors)

/-- Error lines contributed by one therapist in
`TimetableValidator.validate_therapist_data`. -/
def therapist_data_errors (therapist : TherapistData) : List String :=
  if therapist.availability.isEmpty then [therapist.name ++ ": No availability schedule set"]
  else
    therapist.availability.flatMap fun avail =>
      (if ¬ is_valid_day avail.day_of_week then
        [therapist.name ++ ": Invalid day " ++ avail.day_of_week]
      else []) ++
      (if ¬ is_valid_time_range avail.start_time avail.end_time then
        [therapist.name ++ ": Invalid time range " ++ toString avail.start_time ++ "-" ++
          toString avail.end_time]
      else [])

/-- `TimetableValidator.validate_therapist_data`.  The department-coverage
map is non-empty exactly when the therapist list is (every therapist adds
its department before any `continue`), and its per-department lists are
never empty, so of the coverage checks only the global emptiness error can
fire. -/
def validate_therapist_data (therapists_data : List TherapistData) : Bool × List String :=
  let errors := therapists_data.flatMap therapist_data_errors ++
    (if therapists_data.isEmpty then ["No therapists available for any department"] else [])
  (errors.isEmpty, errors)

/-- Insertion-ordered integer-valued department tally (`dict` keyed by
department id, `+=` update). -/
def tally_add (k : Int) (n : Int) : List (Int × Int) → List (Int × Int)
  | [] => [(k, n)]
  | (k', v) :: rest => if k' = k then (k', v + n) :: rest else (k', v) :: tally_add k n rest

/-- First-match tally lookup with the `dict.get(k, 0)` default. -/
def tally_get (k : Int) : List (Int × Int) → Int
  | [] => 0
  | (k', v) :: rest => if k' = k then v else tally_get k rest

/-- `TimetableValidator._calculate_therapist_weekly_capacity`:
`int(total_hours * 0.8)` with exact rational arithmetic.  Total hours are
total minutes over 60, so the float expression is the rational
`total_minutes / 75`, truncated toward zero as Python `int()` does. -/
def calculate_therapist_weekly_capacity (availability : List AvailEntry) : Int :=
  let total_minutes : Int :=
    (availability.map fun a => (a.end_time : Int) - (a.start_time : Int)).sum
  Int.tdiv total_minutes 75

/-- The `sessions_by_department` tally built by `validate_capacity_limits`:
per-department demand accumulated over every child and department need, in
insertion order. -/
def sessions_by_department (children_data : List ChildData) : List (Int × Int) :=
  children_data.foldl
    (fun m child =>
      child.departments.foldl (fun m dept => tally_add dept.department_id dept.sessions_per_week m) m)
    []

/-- The `therapist_capacity_by_dept` tally built by
`validate_capacity_limits`: per-department weekly capacity accumulated over
every therapist. -/
def therapist_capacity_by_dept (therapists_data : List TherapistData) : List (Int × Int) :=
  therapists_data.foldl
    (fun m t => tally_add t.department_id (calculate_therapist_weekly_capacity t.availability) m)
    []

/-- The per-department shortfall error message of `validate_capacity_limits`. -/
def department_shortfall_msg (dept needed avail : Int) : String :=
  "Department " ++ toString dept ++ ": " ++ toString needed ++ " sessions needed, " ++
    toString avail ++ " available"

/-- The per-department high-utilization warning message of
`validate_capacity_limits` (over 80% of capacity demanded). -/
def high_utilization_msg (dept needed avail : Int) : String :=
  "Department " ++ toString dept ++ ": High utilization (" ++ toString needed ++ "/" ++
    toString avail ++ ")"

/-- `TimetableValidator.validate_capacity_limits`.  The 80% comparison
`sessions_needed > available_capacity * 0.8` is the exact rational
comparison `5 * needed > 4 * capacity`. -/
def validate_capacity_limits (children_data : List ChildData)
    (therapists_data : List TherapistData) : Bool × List String :=
  let total_sessions_needed : Int :=
    (children_data.map fun child => (child.departments.map (·.sessions_per_week)).sum).sum
  let total_therapist_capacity : Int :=
    (therapists_data.map fun t => calculate_therapist_weekly_capacity t.availability).sum
  let overall_errors :=
    if total_therapist_capacity < total_sessions_needed then
      ["Insufficient therapist capacity: " ++ toString total_sessions_needed ++
        " sessions needed, " ++ toString total_therapist_capacity ++ " available"]
    else []
  let dept_errors :=
    (sessions_by_department children_data).flatMap fun p =>
      let available_capacity := tally_get p.1 (therapist_capacity_by_dept therapists_data)
      if available_capacity < p.2 then [department_shortfall_msg p.1 p.2 available_capacity]
      else []
  let dept_warnings :=
    (sessions_by_department children_data).flatMap fun p =>
      let available_capacity := tally_get p.1 (therapist_capacity_by_dept therapists_data)
      if ¬ available_capacity < p.2 ∧ 4 * available_capacity < 5 * p.2 then
        [high_utilization_msg p.1 p.2 available_capacity]
      else []
  let errors := overall_errors ++ dept_errors
  (errors.isEmpty, errors ++ dept_warnings)

/-- `SmartTimetableEngine._validate_input_data`: child validation, then
therapist validation, then the capacity check; the capacity messages are
errors when the check fails and warnings when it passes. -/
def validate_input_data (children_data : List ChildData)
    (therapists_data : List TherapistData) : GenerationResult :=
  let cv := validate_child_data children_data
  if ¬ cv.1 then { success := false, sessions_created := 0, errors := cv.2 }
  else
    let tv := validate_therapist_data therapists_data
    if ¬ tv.1 then { success := false, sessions_created := 0, errors := tv.2 }
    else
      let capv := validate_capacity_limits children_data therapists_data
      if ¬ capv.1 then { success := false, sessions_created := 0, errors := capv.2 }
      else { success := true, sessions_created := 0, warnings := capv.2 }

/-- The per-session dict `{"start","end","child_id"}` collected by
`_check_time_conflicts`; `endt` stands for the `"end"` key. -/
structure TimeRec where
  start : Nat
  endt : Nat
  child_id : Int
deriving DecidableEq, Repr, Inhabited

/-- Projection of an assignment into its conflict-check record. -/
def to_time_rec (a : Assignment) : TimeRec :=
  { start := a.start_time, endt := a.end_time, child_id := a.child_id }

/-- Append to a `(therapist_id, date)`-keyed group (`defaultdict(list)` in
`_check_time_conflicts`, insertion-ordered). -/
def sched_append (k : Int × Nat) (v : TimeRec) :
    List ((Int × Nat) × List TimeRec) → List ((Int × Nat) × List TimeRec)
  | [] => [(k, [v])]
  | (k', vs) :: rest =>
    if k' = k then (k', vs ++ [v]) :: rest else (k', vs) :: sched_append k v rest

/-- First-match group lookup. -/
def sched_find (k : Int × Nat) : List ((Int × Nat) × List TimeRec) → Option (List TimeRec)
  | [] => none
  | (k', v) :: rest => if k' = k then some v else sched_find k rest

/-- Group the batch by `(therapist_id, date)` as `_check_time_conflicts`
does. -/
def group_sessions (sessions_data : List Assignment) : List ((Int × Nat) × List TimeRec) :=
  sessions_data.foldl (fun m s => sched_append (s.therapist_id, s.date) (to_time_rec s) m) []

/-- One step of the stable ascending insertion modelling
`time_slots.sort(key=start)`. -/
def insert_by_start (x : TimeRec) : List TimeRec → List TimeRec
  | [] => [x]
  | y :: ys => if x.start ≤ y.start then x :: y :: ys else y :: insert_by_start x ys

/-- Stable ascending sort of a group by start time. -/
def sort_by_start : List TimeRec → List TimeRec
  | [] => []
  | x :: xs => insert_by_start x (sort_by_start xs)

/-- The conflict message of `_check_time_conflicts`, naming the therapist,
the date, and both overlapping ranges. -/
def conflict_msg (therapist_id : Int) (date : Nat) (a b : TimeRec) : String :=
  "Therapist " ++ toString therapist_id ++ " has overlapping sessions on " ++ toString date ++
    ": " ++ toString a.start ++ "-" ++ toString a.endt ++ " and " ++ toString b.start ++ "-" ++
    toString b.endt

/-- Adjacent-pair scan of a sorted group: report every earlier slot whose
end passes the next slot's start. -/
def adjacent_conflicts (therapist_id : Int) (date : Nat) : List TimeRec → List String
  | a :: b :: rest =>
    (if b.start < a.endt then [conflict_msg therapist_id date a b] else []) ++
      adjacent_conflicts therapist_id date (b :: rest)
  | _ => []

/-- `TimetableDataHelper._check_time_conflicts`. -/
def check_time_conflicts (sessions_data : List Assignment) : List String :=
  (group_sessions sessions_data).flatMap fun g =>
    adjacent_conflicts g.1.1 g.1.2 (sort_by_start g.2)

/-- A persisted session row (the `SessionModel` columns set by
`bulk_create_sessions`). -/
structure SessionRow where
  child_id : Int
  therapist_id : Int
  department_id : Int
  date : Nat
  start_time : Nat
  end_time : Nat
  week_starting : Nat
deriving DecidableEq, Repr, Inhabited

/-- Row built from one computed assignment. -/
def to_session_row (a : Assignment) : SessionRow :=
  { child_id := a.child_id, therapist_id := a.therapist_id, department_id := a.department_id,
    date := a.date, start_time := a.start_time, end_time := a.end_time,
    week_starting := a.week_starting }

/-- `TimetableDataHelper.bulk_create_sessions` over a pure database state
(list of rows): any conflict aborts with `(0, conflicts)` and an unchanged
database; otherwise all rows are inserted in one batch.  The database
exception path, an external fault, is not modelled. -/
def bulk_create_sessions (db : List SessionRow) (sessions_data : List Assignment) :
    (Nat × List String) × List SessionRow :=
  let conflicts := check_time_conflicts sessions_data
  if conflicts.isEmpty then
    ((sessions_data.length, []), db ++ sessions_data.map to_session_row)
  else
    ((0, conflicts), db)

/-- Closed form of the tiling loop: the overlap `[cur, e)` yields exactly
the consecutive 60-minute slots starting at `cur` that fit before `e`. -/
theorem tile_go_spec : ∀ (n cur e : Nat), e - cur ≤ n →
    tile_go n cur e =
      (List.range ((e - cur) / 60)).map fun i => (cur + 60 * i, cur + 60 * i + 60) := by
  intro n
  induction n with
  | zero =>
    intro cur e he
    have h0 : (e - cur) / 60 = 0 := by omega
    simp [tile_go, h0]
  | succ n ih =>
    intro cur e he
    rw [tile_go]
    by_cases h : cur < e
    · rw [if_pos h, ih (cur + 60) e (by omega)]
      by_cases h2 : cur + 60 ≤ e
      · rw [if_pos h2]
        have hsub : e - cur = (e - (cur + 60)) + 60 := by omega
        have hdiv : (e - cur) / 60 = (e - (cur + 60)) / 60 + 1 := by
          rw [hsub, Nat.add_div_right _ (by norm_num)]
        rw [hdiv, List.range_succ_eq_map, List.map_cons, List.map_map]
        simp only [Nat.mul_zero, Nat.add_zero, List.singleton_append]
        refine congrArg _ (List.map_congr_left ?_)
        intro i _
        simp [Function.comp]
        omega
      · rw [if_neg h2]
        have hd1 : (e - cur) / 60 = 0 := Nat.div_eq_of_lt (by omega)
        have hd2 : (e - (cur + 60)) / 60 = 0 := Nat.div_eq_of_lt (by omega)
        rw [hd1, hd2]
        simp
    · rw [if_neg h]
      have h0 : (e - cur) / 60 = 0 := by
        have : e - cur = 0 := by omega
        simp [this]
      rw [h0]
      simp

/-- Closed form of the tiling loop: the overlap `[cur, e)` yields exactly
the consecutive 60-minute slots starting at `cur` that fit before `e`. -/
theorem tile_slots_spec (cur e : Nat) :
    tile_slots cur e =
      (List.range ((e - cur) / 60)).map fun i => (cur + 60 * i, cur + 60 * i + 60) :=
  tile_go_spec (e - cur) cur e le_rfl

/-- Every slot the tiler emits is exactly one hour long and lies inside the
tiled interval. -/
theorem mem_tile_slots {p : Nat × Nat} {cur e : Nat} (hp : p ∈ tile_slots cur e) :
    p.2 = p.1 + 60 ∧ cur ≤ p.1 ∧ p.2 ≤ e := by
  rw [tile_slots_spec] at hp
  rcases List.mem_map.1 hp with ⟨i, hi, rfl⟩
  rcases List.mem_range.1 hi with hilt
  have hmul : (i + 1) * 60 ≤ (e - cur) / 60 * 60 := Nat.mul_le_mul_right 60 hilt
  have hdm : (e - cur) / 60 * 60 ≤ e - cur := Nat.div_mul_le_self (e - cur) 60
  refine ⟨rfl, Nat.le_add_right _ _, ?_⟩
  simp only []
  omega

/-- Membership in the overlap computation, unfolded to the contributing
window pair. -/
theorem mem_find_overlapping_slots {p : Nat × Nat}
    {A B : List (Nat × Nat)} (hp : p ∈ find_overlapping_slots A B) :
    ∃ a ∈ A, ∃ b ∈ B, max a.1 b.1 < min a.2 b.2 ∧ p ∈ tile_slots (max a.1 b.1) (min a.2 b.2) := by
  simp only [find_overlapping_slots, List.mem_flatMap] at hp
  rcases hp with ⟨a, ha, b, hb, hmem⟩
  by_cases hlt : max a.1 b.1 < min a.2 b.2
  · exact ⟨a, ha, b, hb, hlt, by simpa [hlt] using hmem⟩
  · simp [hlt] at hmem

/-- Every emitted overlap slot is one hour long and contained in a window
from each side. -/
theorem find_overlapping_slots_sound {p : Nat × Nat}
    {A B : List (Nat × Nat)} (hp : p ∈ find_overlapping_slots A B) :
    p.2 = p.1 + 60 ∧ (∃ a ∈ A, a.1 ≤ p.1 ∧ p.2 ≤ a.2) ∧ ∃ b ∈ B, b.1 ≤ p.1 ∧ p.2 ≤ b.2 := by
  rcases mem_find_overlapping_slots hp with ⟨a, ha, b, hb, hlt, htile⟩
  rcases mem_tile_slots htile with ⟨hlen, hlo, hhi⟩
  refine ⟨hlen, ⟨a, ha, ?_, ?_⟩, ⟨b, hb, ?_, ?_⟩⟩ <;> omega

/-- Modelled from the spec words of §4.3 (TimeWindowMatcher), for
comparison with the implementation: every window pair contributes the
60-minute tiles of its overlap that end inside the overlap, ignoring the
trailing remainder. -/
def spec_overlap_slots (windowsA windowsB : List (Nat × Nat)) :
    List (Nat × Nat) :=
  windowsA.flatMap fun a =>
    windowsB.flatMap fun b =>
      (List.range ((min a.2 b.2 - max a.1 b.1) / 60)).map fun i =>
        (max a.1 b.1 + 60 * i, max a.1 b.1 + 60 * i + 60)

/-- C5: the overlap computation returns, for each window pair, exactly the
60-minute tiles of the pair's overlap starting at the overlap start, the
trailing sub-60-minute remainder contributing nothing; every returned slot
is exactly 60 minutes and contained in a window of each side.  The bound
1380 (= 23:00) keeps the inputs in the wrap-free domain of the midnight
`datetime` round-trip used by the source; inside it the model is exact. -/
theorem overlap_matches_tiling_spec (A B : List (Nat × Nat))
    (hA : ∀ w ∈ A, w.2 ≤ 1380) (hB : ∀ w ∈ B, w.2 ≤ 1380) :
    find_overlapping_slots A B = spec_overlap_slots A B ∧
      ∀ p ∈ find_overlapping_slots A B,
        p.2 = p.1 + 60 ∧ (∃ a ∈ A, a.1 ≤ p.1 ∧ p.2 ≤ a.2) ∧ ∃ b ∈ B, b.1 ≤ p.1 ∧ p.2 ≤ b.2 := by
  constructor
  · unfold find_overlapping_slots spec_overlap_slots
    refine List.flatMap_congr ?_
    intro a _
    refine List.flatMap_congr ?_
    intro b _
    by_cases hlt : max a.1 b.1 < min a.2 b.2
    · rw [if_pos hlt, tile_slots_spec]
    · rw [if_neg hlt]
      have h0 : (min a.2 b.2 - max a.1 b.1) / 60 = 0 := by
        have : min a.2 b.2 - max a.1 b.1 = 0 := by omega
        simp [this]
      rw [h0]
      simp
  · intro p hp
    exact find_overlapping_slots_sound hp

/-- Witness for `overlap_matches_tiling_spec` at concrete windows
(therapist 08:00-16:00, child 08:30-10:00: slots 08:30-09:30 only, the
09:30-10:00 remainder discarded). -/
theorem overlap_matches_tiling_spec_witness :
    (∀ w ∈ [((480 : Nat), (960 : Nat))], w.2 ≤ 1380) ∧
      find_overlapping_slots [(480, 960)] [(510, 600)] = [(510, 570)] ∧
      find_overlapping_slots [(480, 960)] [(510, 600)] =
        spec_overlap_slots [(480, 960)] [(510, 600)] :=
  ⟨by decide, by decide,
    (overlap_matches_tiling_spec [(480, 960)] [(510, 600)] (by decide) (by decide)).1⟩

/-- The head of the stable descending insertion of `x` into `l`: `x` itself
when it beats or ties the head, otherwise the old head. -/
theorem insert_desc_head (x : Assignment) (l : List Assignment) :
    (insert_desc x l).head? =
      match l.head? with
      | none => some x
      | some y => if y.priority_score ≤ x.priority_score then some x else some y := by
  cases l with
  | nil => rfl
  | cons y ys =>
    simp only [insert_desc, List.head?_cons]
    by_cases h : y.priority_score ≤ x.priority_score
    · simp [h]
    · simp [h]

/-- Elements of the stable descending insertion. -/
theorem mem_insert_desc {z x : Assignment} {l : List Assignment} :
    z ∈ insert_desc x l ↔ z = x ∨ z ∈ l := by
  induction l with
  | nil => simp [insert_desc]
  | cons y ys ih =>
    simp only [insert_desc]
    by_cases h : y.priority_score ≤ x.priority_score
    · simp [h]
    · simp only [if_neg h, List.mem_cons, ih]
      tauto

/-- Stable descending insertion never produces the empty list. -/
theorem insert_desc_ne_nil (x : Assignment) (l : List Assignment) : insert_desc x l ≠ [] := by
  cases l with
  | nil => simp [insert_desc]
  | cons y ys =>
    simp only [insert_desc]
    by_cases h : y.priority_score ≤ x.priority_score <;> simp [h]

/-- The stable descending sort is empty only for the empty list. -/
theorem sort_by_priority_desc_eq_nil {l : List Assignment}
    (h : sort_by_priority_desc l = []) : l = [] := by
  cases l with
  | nil => rfl
  | cons a as => exact absurd h (insert_desc_ne_nil a (sort_by_priority_desc as))

/-- The first element of the stable descending sort is the first-encountered
candidate of maximal priority score: it belongs to the list, every element
scores at most it, and every element strictly before it in the original
order scores strictly less. -/
theorem sort_by_priority_desc_head :
    ∀ (l : List Assignment) (x : Assignment), (sort_by_priority_desc l).head? = some x →
      ∃ p q, l = p ++ x :: q ∧ (∀ y ∈ l, y.priority_score ≤ x.priority_score) ∧
        ∀ y ∈ p, y.priority_score < x.priority_score := by
  intro l
  induction l with
  | nil => intro x hx; simp [sort_by_priority_desc] at hx
  | cons a as ih =>
    intro x hx
    rw [sort_by_priority_desc, insert_desc_head] at hx
    cases hsa : (sort_by_priority_desc as).head? with
    | none =>
      rw [hsa] at hx
      simp only [Option.some.injEq] at hx
      subst hx
      have hasnil : as = [] :=
        sort_by_priority_desc_eq_nil (List.head?_eq_none_iff.1 hsa)
      subst hasnil
      exact ⟨[], [], rfl, by simp, by simp⟩
    | some m =>
      rw [hsa] at hx
      simp only [] at hx
      rcases ih m hsa with ⟨p, q, hpq, hmax, hpre⟩
      by_cases hc : m.priority_score ≤ a.priority_score
      · rw [if_pos hc, Option.some.injEq] at hx
        subst hx
        refine ⟨[], as, rfl, ?_, by simp⟩
        intro y hy
        rcases List.mem_cons.1 hy with rfl | hy'
        · exact le_rfl
        · exact le_trans (hmax y hy') hc
      · rw [if_neg hc, Option.some.injEq] at hx
        subst hx
        refine ⟨a :: p, q, by simp [hpq], ?_, ?_⟩
        · intro y hy
          rcases List.mem_cons.1 hy with rfl | hy'
          · omega
          · exact hmax y hy'
        · intro y hy
          rcases List.mem_cons.1 hy with rfl | hy'
          · omega
          · exact hpre y hy'

/-- A sorted head is a member of the original candidate list. -/
theorem sort_by_priority_desc_head_mem {l : List Assignment} {x : Assignment}
    (hx : (sort_by_priority_desc l).head? = some x) : x ∈ l := by
  rcases sort_by_priority_desc_head l x hx with ⟨p, q, hpq, -, -⟩
  rw [hpq]
  exact List.mem_append_right p (List.mem_cons_self x q)

/-- Membership in the collected `best_options` of one demand, characterized
by the loop structure of `_find_best_time_slot`: a day from the preference
list passing the child daily cap, a candidate therapist available that day
passing the therapist daily cap, and an overlap slot. -/
theorem mem_candidate_options {a : Assignment} {s : SessionSlot}
    {avail : List TherapistSlot} {w : Nat} {cd td : DailyCount} :
    a ∈ candidate_options s avail w cd td ↔
      ∃ day ∈ s.day_preferences, cd s.child_id (get_date_for_day w day) < 5 ∧
        ∃ t ∈ avail, ∃ tt, dict_find day t.availability = some tt ∧
          td t.therapist_id (get_date_for_day w day) < 8 ∧
          ∃ ts ∈ find_overlapping_slots tt s.time_preferences,
            a = mk_candidate s t day ts (get_date_for_day w day) w cd td := by
  unfold candidate_options
  rw [List.mem_flatMap]
  refine exists_congr fun day => and_congr_right fun hday => ?_
  by_cases h5 : 5 ≤ cd s.child_id (get_date_for_day w day)
  · simp only [if_pos h5, List.not_mem_nil, false_iff, not_and]
    intro h5'
    omega
  · rw [if_neg h5, List.mem_flatMap]
    simp only [not_le] at h5
    rw [iff_true_intro h5, true_and]
    refine exists_congr fun t => and_congr_right fun ht => ?_
    cases hdf : dict_find day t.availability with
    | none =>
      simp only [List.not_mem_nil, false_iff]
      rintro ⟨tt, htt, -⟩
      exact Option.noConfusion htt
    | some tt =>
      simp only []
      by_cases h8 : 8 ≤ td t.therapist_id (get_date_for_day w day)
      · simp only [if_pos h8, List.not_mem_nil, false_iff]
        rintro ⟨tt', -, h8', -⟩
        omega
      · rw [if_neg h8, List.mem_filterMap]
        simp only [not_le] at h8
        constructor
        · rintro ⟨ts, hts, hsome⟩
          rw [is_time_slot_free, if_pos rfl, Option.some.injEq] at hsome
          exact ⟨tt, rfl, h8, ts, hts, hsome.symm⟩
        · rintro ⟨tt', htt', h8', ts, hts, rfl⟩
          obtain rfl : tt = tt' := Option.some.inj htt'
          exact ⟨ts, hts, by rw [is_time_slot_free, if_pos rfl]⟩

/-- Postcondition of `_find_best_time_slot`: a returned allocation is one of
the collected candidates, so it copies the demand's child and department,
targets a preferred day whose child daily count is below 5, a listed
therapist available that day with daily count below 8, and a slot from the
overlap computation between that therapist's windows for the day and the
demand's time preferences. -/
theorem find_best_time_slot_spec {s : SessionSlot} {avail : List TherapistSlot}
    {w : Nat} {cd td : DailyCount} {a : Assignment}
    (h : find_best_time_slot s avail w cd td = some a) :
    a ∈ candidate_options s avail w cd td ∧
      a.child_id = s.child_id ∧ a.department_id = s.department_id ∧ a.week_starting = w ∧
      a.end_time = a.start_time + 60 ∧
      ∃ day ∈ s.day_preferences, a.date = get_date_for_day w day ∧
        cd s.child_id a.date < 5 ∧
        ∃ t ∈ avail, t.therapist_id = a.therapist_id ∧
          td a.therapist_id a.date < 8 ∧
          ∃ tt, dict_find day t.availability = some tt ∧
            (a.start_time, a.end_time) ∈ find_overlapping_slots tt s.time_preferences := by
  have hmem : a ∈ candidate_options s avail w cd td :=
    sort_by_priority_desc_head_mem h
  rcases mem_candidate_options.1 hmem with
    ⟨day, hday, h5, t, ht, tt, htt, h8, ts, hts, rfl⟩
  have hlen := (find_overlapping_slots_sound hts).1
  refine ⟨hmem, rfl, rfl, rfl, ?_, day, hday, rfl, ?_, t, ht, rfl, ?_, tt, htt, ?_⟩
  · simpa [mk_candidate] using hlen
  · simpa [mk_candidate] using h5
  · simpa [mk_candidate] using h8
  · simpa [mk_candidate] using hts

/-- Example demand: child 1 needs one department-1 session, available
Monday 09:00-10:00. -/
def exDemandA : SessionSlot :=
  { child_id := 1, child_name := "A", department_id := 1, department_name := "D",
    sessions_needed := 1, day_preferences := ["Monday"], time_preferences := [(540, 600)] }

/-- Example demand: child 2, otherwise identical to `exDemandA`. -/
def exDemandB : SessionSlot :=
  { child_id := 2, child_name := "B", department_id := 1, department_name := "D",
    sessions_needed := 1, day_preferences := ["Monday"], time_preferences := [(540, 600)] }

/-- Example therapist: department 1, available Monday 09:00-10:00 only, no
prior load. -/
def exTher : TherapistSlot :=
  { therapist_id := 1, therapist_name := "T", department_id := 1, department_name := "D",
    availability := [("Monday", [(540, 600)])], current_load := 0, fairness_score := 0 }

/-- The allocation `find_best_time_slot` computes for `exDemandA` against
`exTher` in week 0 from zero counters. -/
def exBestA : Assignment :=
  { child_id := 1, therapist_id := 1, department_id := 1, date := 0,
    start_time := 540, end_time := 600, week_starting := 0, priority_score := 134 }

/-- C6: the candidate priority score is exactly
`100 + (10 - load) * 2 + (5 if start before 12:00 else 0)
 + max 0 (3 - child sessions that date) + max 0 (6 - therapist sessions that
date)`, with no floor (a load of 20 in the afternoon with saturated
counters scores 80 < 100); and the allocation returned for a demand is the
first-encountered candidate of maximal score: every collected candidate
scores at most it, and every candidate collected before it scores strictly
less (Python's stable score-only descending sort puts the first maximal
element at the head). -/
theorem priority_score_formula_and_selection :
    (∀ (s : SessionSlot) (t : TherapistSlot) (day : String) (ts : Nat × Nat) (d : Nat)
      (cd td : DailyCount),
      calculate_slot_priority s t day ts d cd td =
        100 + (10 - t.current_load) * 2 + (if ts.1 < 720 then (5 : Int) else 0) +
          max 0 (3 - (cd s.child_id d : Int)) + max 0 (6 - (td t.therapist_id d : Int))) ∧
    (calculate_slot_priority exDemandA { exTher with current_load := 20 } "Monday" (720, 780) 0
        (fun _ _ => 3) (fun _ _ => 6) = 80) ∧
    ∀ (s : SessionSlot) (avail : List TherapistSlot) (w : Nat) (cd td : DailyCount)
      (a : Assignment), find_best_time_slot s avail w cd td = some a →
      ∃ p q, candidate_options s avail w cd td = p ++ a :: q ∧
        (∀ b ∈ candidate_options s avail w cd td, b.priority_score ≤ a.priority_score) ∧
        ∀ b ∈ p, b.priority_score < a.priority_score := by
  refine ⟨fun s t day ts d cd td => rfl, by decide, ?_⟩
  intro s avail w cd td a h
  exact sort_by_priority_desc_head (candidate_options s avail w cd td) a h

/-- Witness for `priority_score_formula_and_selection` at the example
demand and therapist: the single collected candidate scores 134 and is
returned. -/
theorem priority_score_formula_and_selection_witness :
    (find_best_time_slot exDemandA [exTher] 0 (fun _ _ => 0) (fun _ _ => 0) = some exBestA) ∧
      ∃ p q,
        candidate_options exDemandA [exTher] 0 (fun _ _ => 0) (fun _ _ => 0) =
          p ++ exBestA :: q ∧
        (∀ b ∈ candidate_options exDemandA [exTher] 0 (fun _ _ => 0) (fun _ _ => 0),
          b.priority_score ≤ exBestA.priority_score) ∧
        ∀ b ∈ p, b.priority_score < exBestA.priority_score :=
  ⟨by decide,
    priority_score_formula_and_selection.2.2 exDemandA [exTher] 0 (fun _ _ => 0) (fun _ _ => 0)
      exBestA (by decide)⟩

/-- Membership in the stable ascending insertion. -/
theorem mem_insert_by_start {z x : TimeRec} {l : List TimeRec} :
    z ∈ insert_by_start x l ↔ z = x ∨ z ∈ l := by
  induction l with
  | nil => simp [insert_by_start]
  | cons y ys ih =>
    simp only [insert_by_start]
    by_cases h : x.start ≤ y.start
    · simp [h]
    · simp only [if_neg h, List.mem_cons, ih]
      tauto

/-- The stable ascending insertion permutes the consed list. -/
theorem insert_by_start_perm (x : TimeRec) (l : List TimeRec) :
    (insert_by_start x l).Perm (x :: l) := by
  induction l with
  | nil => simp [insert_by_start]
  | cons y ys ih =>
    simp only [insert_by_start]
    by_cases h : x.start ≤ y.start
    · simp [h]
    · rw [if_neg h]
      exact (List.Perm.cons y ih).trans (List.Perm.swap x y ys)

/-- The stable sort by start time permutes its input. -/
theorem sort_by_start_perm (l : List TimeRec) : (sort_by_start l).Perm l := by
  induction l with
  | nil => simp [sort_by_start]
  | cons x xs ih =>
    exact (insert_by_start_perm x (sort_by_start xs)).trans (List.Perm.cons x ih)

/-- Insertion preserves sortedness by start time. -/
theorem insert_by_start_pairwise {x : TimeRec} {l : List TimeRec}
    (hl : l.Pairwise fun a b => a.start ≤ b.start) :
    (insert_by_start x l).Pairwise fun a b => a.start ≤ b.start := by
  induction l with
  | nil => simp [insert_by_start]
  | cons y ys ih =>
    rcases List.pairwise_cons.1 hl with ⟨hy, hys⟩
    simp only [insert_by_start]
    by_cases h : x.start ≤ y.start
    · rw [if_pos h]
      refine List.pairwise_cons.2 ⟨?_, hl⟩
      intro z hz
      rcases List.mem_cons.1 hz with rfl | hz'
      · exact h
      · exact le_trans h (hy z hz')
    · rw [if_neg h]
      refine List.pairwise_cons.2 ⟨?_, ih hys⟩
      intro z hz
      rcases mem_insert_by_start.1 hz with rfl | hz'
      · omega
      · exact hy z hz'

/-- The stable sort by start time is sorted by start time. -/
theorem sort_by_start_sorted (l : List TimeRec) :
    (sort_by_start l).Pairwise fun a b => a.start ≤ b.start := by
  induction l with
  | nil => simp [sort_by_start]
  | cons x xs ih => exact insert_by_start_pairwise ih

/-- The adjacent scan reports nothing exactly when consecutive sorted slots
never overlap. -/
theorem adjacent_conflicts_eq_nil (tid : Int) (d : Nat) :
    ∀ l : List TimeRec,
      adjacent_conflicts tid d l = [] ↔ l.Chain' fun a b => a.endt ≤ b.start := by
  intro l
  match l with
  | [] => simp [adjacent_conflicts]
  | [a] => simp [adjacent_conflicts]
  | a :: b :: rest =>
    rw [adjacent_conflicts, List.append_eq_nil, List.chain'_cons,
      adjacent_conflicts_eq_nil tid d (b :: rest)]
    by_cases h : b.start < a.endt
    · simp only [if_pos h]
      constructor
      · rintro ⟨hfalse, -⟩
        exact absurd hfalse (by simp)
      · rintro ⟨hle, -⟩
        omega
    · simp only [if_neg h]
      constructor
      · rintro ⟨-, hch⟩
        exact ⟨by omega, hch⟩
      · rintro ⟨-, hch⟩
        exact ⟨by simp, hch⟩

/-- Every message of the adjacent scan names a genuinely overlapping
adjacent pair of ranges. -/
theorem mem_adjacent_conflicts {tid : Int} {d : Nat} :
    ∀ {l : List TimeRec} {msg : String}, msg ∈ adjacent_conflicts tid d l →
      ∃ a b, msg = conflict_msg tid d a b ∧ b.start < a.endt := by
  intro l
  match l with
  | [] => intro msg h; simp [adjacent_conflicts] at h
  | [a] => intro msg h; simp [adjacent_conflicts] at h
  | a :: b :: rest =>
    intro msg h
    rw [adjacent_conflicts, List.mem_append] at h
    rcases h with h | h
    · by_cases hov : b.start < a.endt
      · rw [if_pos hov, List.mem_singleton] at h
        exact ⟨a, b, h, hov⟩
      · rw [if_neg hov] at h
        exact absurd h (List.not_mem_nil msg)
    · exact mem_adjacent_conflicts h

/-- A chain of empty lists flattens to the empty list, and conversely. -/
theorem flatMap_eq_nil_iff {α β : Type} {l : List α} {f : α → List β} :
    l.flatMap f = [] ↔ ∀ x ∈ l, f x = [] := by
  induction l with
  | nil => simp
  | cons a as ih => simp [List.flatMap_cons, List.append_eq_nil, ih]

/-- Group contents with the missing-key default. -/
def sched_get (k : Int × Nat) (g : List ((Int × Nat) × List TimeRec)) : List TimeRec :=
  (sched_find k g).getD []

/-- A found group entry is a member of the association list. -/
theorem sched_find_mem {k : Int × Nat} {v : List TimeRec} :
    ∀ {g : List ((Int × Nat) × List TimeRec)}, sched_find k g = some v → (k, v) ∈ g := by
  intro g
  induction g with
  | nil => intro h; exact absurd h (by simp [sched_find])
  | cons e rest ih =>
    obtain ⟨ek, ev⟩ := e
    intro h
    rw [sched_find] at h
    by_cases hk : ek = k
    · rw [if_pos hk] at h
      obtain rfl : ev = v := Option.some.inj h
      subst hk
      exact List.mem_cons_self _ _
    · rw [if_neg hk] at h
      exact List.mem_cons_of_mem _ (ih h)

/-- Appending a record to its key's group extends exactly that group. -/
theorem sched_find_append (k k' : Int × Nat) (v : TimeRec) :
    ∀ g : List ((Int × Nat) × List TimeRec),
      sched_find k (sched_append k' v g) =
        if k' = k then some (sched_get k g ++ [v]) else sched_find k g := by
  intro g
  induction g with
  | nil =>
    by_cases hk : k' = k
    · subst hk
      simp [sched_append, sched_find, sched_get]
    · simp [sched_append, sched_find, hk]
  | cons e rest ih =>
    obtain ⟨ek, ev⟩ := e
    by_cases he : ek = k'
    · rw [sched_append, if_pos he, sched_find]
      by_cases hk : k' = k
      · rw [if_pos (he.trans hk), if_pos hk, sched_get, sched_find, if_pos (he.trans hk)]
        rfl
      · have hek : ¬ ek = k := fun h => hk (he ▸ h)
        rw [if_neg hek, if_neg hk, sched_find, if_neg hek]
    · rw [sched_append, if_neg he, sched_find]
      by_cases hek : ek = k
      · have hk : ¬ k' = k := fun h => he (hek.trans h.symm)
        rw [if_pos hek, if_neg hk, sched_find, if_pos hek]
      · rw [if_neg hek, ih]
        by_cases hk : k' = k
        · rw [if_pos hk, if_pos hk]
          have hskip : sched_get k ((ek, ev) :: rest) = sched_get k rest := by
            rw [sched_get, sched_find, if_neg hek]
            rfl
          rw [hskip]
        · rw [if_neg hk, if_neg hk, sched_find, if_neg hek]

/-- Folding the grouping step accumulates, per key, exactly the records of
the batch entries with that key, in batch order. -/
theorem sched_get_foldl (data : List Assignment) :
    ∀ (g : List ((Int × Nat) × List TimeRec)) (k : Int × Nat),
      sched_get k
          (data.foldl (fun m s => sched_append (s.therapist_id, s.date) (to_time_rec s) m) g) =
        sched_get k g ++
          (data.filter fun s => decide ((s.therapist_id, s.date) = k)).map to_time_rec := by
  induction data with
  | nil => intro g k; simp
  | cons s rest ih =>
    intro g k
    rw [List.foldl_cons, ih, List.filter_cons]
    by_cases hk : (s.therapist_id, s.date) = k
    · rw [if_pos (by simp [hk])]
      rw [List.map_cons]
      have : sched_get k (sched_append (s.therapist_id, s.date) (to_time_rec s) g) =
          sched_get k g ++ [to_time_rec s] := by
        rw [sched_get, sched_find_append, if_pos hk]
        rfl
      rw [this, List.append_assoc]
      rfl
    · rw [if_neg (by simp [hk])]
      have : sched_get k (sched_append (s.therapist_id, s.date) (to_time_rec s) g) =
          sched_get k g := by
        rw [sched_get, sched_find_append, if_neg hk]
        rfl
      rw [this]

/-- The `(therapist, date)` group of the batch is the record projection of
the batch entries with that key, in order. -/
theorem group_sessions_get (data : List Assignment) (k : Int × Nat) :
    sched_get k (group_sessions data) =
      (data.filter fun s => decide ((s.therapist_id, s.date) = k)).map to_time_rec := by
  rw [group_sessions, sched_get_foldl]
  rfl

/-- In a start-sorted list whose consecutive slots never overlap, no two
slots overlap at all. -/
theorem pairwise_disjoint_of_chain_sorted :
    ∀ {l : List TimeRec}, (l.Chain' fun a b => a.endt ≤ b.start) →
      (l.Pairwise fun a b => a.start ≤ b.start) →
      l.Pairwise fun a b => a.endt ≤ b.start := by
  intro l
  induction l with
  | nil => simp
  | cons a rest ih =>
    intro hch hp
    rcases List.pairwise_cons.1 hp with ⟨hstart, hprest⟩
    cases rest with
    | nil => simp
    | cons c rest' =>
      rcases List.chain'_cons.1 hch with ⟨hac, hch'⟩
      refine List.pairwise_cons.2 ⟨?_, ih hch' hprest⟩
      intro b hb
      rcases List.mem_cons.1 hb with rfl | hb'
      · exact hac
      · have hcb : c.start ≤ b.start := (List.pairwise_cons.1 hprest).1 b hb'
        omega

/-- If every `(therapist, date)` fiber of the batch is pairwise related by
`R`, the whole batch is pairwise related by `R` under key equality. -/
theorem pairwise_of_filter_pairwise {R : Assignment → Assignment → Prop} :
    ∀ data : List Assignment,
      (∀ k : Int × Nat,
        ((data.filter fun s => decide ((s.therapist_id, s.date) = k)).Pairwise R)) →
      data.Pairwise fun a b => (a.therapist_id, a.date) = (b.therapist_id, b.date) → R a b := by
  intro data
  induction data with
  | nil => intro _; simp
  | cons a rest ih =>
    intro hf
    refine List.pairwise_cons.2 ⟨?_, ih ?_⟩
    · intro b hb hkey
      have h1 := hf (a.therapist_id, a.date)
      rw [List.filter_cons, if_pos (by simp)] at h1
      exact (List.pairwise_cons.1 h1).1 b
        (List.mem_filter.2 ⟨hb, by simp [← hkey]⟩)
    · intro k
      have h1 := hf k
      rw [List.filter_cons] at h1
      by_cases hk : (a.therapist_id, a.date) = k
      · rw [if_pos (by simp [hk])] at h1
        exact (List.pairwise_cons.1 h1).2
      · rwa [if_neg (by simp [hk])] at h1

/-- The no-double-booking property of C1: no two assignments of the list
share `(therapist_id, date)` with overlapping `[start, end)` ranges. -/
def no_therapist_overlap (l : List Assignment) : Prop :=
  l.Pairwise fun a b => a.therapist_id = b.therapist_id → a.date = b.date →
    a.end_time ≤ b.start_time ∨ b.end_time ≤ a.start_time

/-- Executable check for `no_therapist_overlap`. -/
def no_therapist_overlap_check : List Assignment → Bool
  | [] => true
  | a :: rest =>
    rest.all (fun b => decide (a.therapist_id = b.therapist_id → a.date = b.date →
      a.end_time ≤ b.start_time ∨ b.end_time ≤ a.start_time)) &&
    no_therapist_overlap_check rest

/-- The executable check decides the pairwise property. -/
theorem no_therapist_overlap_iff (l : List Assignment) :
    no_therapist_overlap_check l = true ↔ no_therapist_overlap l := by
  induction l with
  | nil => simp [no_therapist_overlap_check, no_therapist_overlap]
  | cons a rest ih =>
    rw [no_therapist_overlap_check, Bool.and_eq_true, List.all_eq_true]
    rw [no_therapist_overlap, List.pairwise_cons]
    rw [ih]
    simp only [decide_eq_true_eq]
    rfl

/-- Executable adjacent-pair scan over a start-sorted group: true when no
earlier end passes the next start. -/
def adjacent_overlap_free : List TimeRec → Bool
  | a :: b :: rest => (a.endt ≤ b.start : Bool) && adjacent_overlap_free (b :: rest)
  | _ => true

/-- The executable scan decides the chain property. -/
theorem adjacent_overlap_free_iff :
    ∀ l : List TimeRec,
      adjacent_overlap_free l = true ↔ l.Chain' fun a b => a.endt ≤ b.start := by
  intro l
  match l with
  | [] => simp [adjacent_overlap_free]
  | [a] => simp [adjacent_overlap_free]
  | a :: b :: rest =>
    rw [adjacent_overlap_free, Bool.and_eq_true, List.chain'_cons,
      adjacent_overlap_free_iff (b :: rest)]
    simp

/-- The allocation `find_best_time_slot` computes for `exDemandB` after
`exDemandA` was committed (therapist load 1, one session already on the
date). -/
def exBestB : Assignment :=
  { child_id := 2, therapist_id := 1, department_id := 1, date := 0,
    start_time := 540, end_time := 600, week_starting := 0, priority_score := 131 }

/-- C1 counterexample: the allocation stage alone commits the identical
09:00-10:00 Monday slot of therapist 1 to both children (the
`_is_time_slot_free` placeholder accepts everything), so its output is not
free of therapist double-booking. -/
theorem allocation_stage_can_double_book :
    (allocate_sessions_intelligently [exDemandA, exDemandB] [exTher] 0).sessions =
      [exBestA, exBestB] ∧
    ¬ no_therapist_overlap
        (allocate_sessions_intelligently [exDemandA, exDemandB] [exTher] 0).sessions := by
  constructor
  · decide
  · intro hcon
    exact absurd ((no_therapist_overlap_iff _).2 hcon) (by decide)

/-- C1 (amended): the no-double-booking guarantee holds of every batch the
persistence-time conflict check accepts: when `_check_time_conflicts`
reports nothing, no two assignments share `(therapist_id, date)` with
overlapping ranges.  (Each group is a start-sorted permutation whose
adjacent slots do not overlap, which forces all pairs apart.) -/
theorem conflict_check_clean_implies_no_overlap (data : List Assignment)
    (h : check_time_conflicts data = []) : no_therapist_overlap data := by
  rw [check_time_conflicts] at h
  have hgroups := flatMap_eq_nil_iff.1 h
  have hfib : ∀ k : Int × Nat,
      ((data.filter fun s => decide ((s.therapist_id, s.date) = k)).Pairwise
        fun a b => a.end_time ≤ b.start_time ∨ b.end_time ≤ a.start_time) := by
    intro k
    cases hf : sched_find k (group_sessions data) with
    | none =>
      have hget : sched_get k (group_sessions data) = [] := by
        rw [sched_get, hf]
        rfl
      rw [group_sessions_get] at hget
      rw [List.map_eq_nil_iff.1 hget]
      exact List.Pairwise.nil
    | some v =>
      have hmem : (k, v) ∈ group_sessions data := sched_find_mem hf
      have hadj := hgroups (k, v) hmem
      have hch := (adjacent_conflicts_eq_nil k.1 k.2 (sort_by_start v)).1 hadj
      have hpw := pairwise_disjoint_of_chain_sorted hch (sort_by_start_sorted v)
      have hpw2 : (sort_by_start v).Pairwise
          (fun a b : TimeRec => a.endt ≤ b.start ∨ b.endt ≤ a.start) :=
        hpw.imp fun hab => Or.inl hab
      have hpv : v.Pairwise (fun a b : TimeRec => a.endt ≤ b.start ∨ b.endt ≤ a.start) :=
        ((sort_by_start_perm v).pairwise_iff fun hab => Or.symm hab).1 hpw2
      have hv : v = (data.filter fun s => decide ((s.therapist_id, s.date) = k)).map
          to_time_rec := by
        have hg := group_sessions_get data k
        rw [sched_get, hf] at hg
        exact hg
      rw [hv] at hpv
      exact List.pairwise_map.1 hpv
  have hmain := pairwise_of_filter_pairwise data hfib
  exact hmain.imp fun hp h1 h2 => hp (by rw [h1, h2])

/-- Witness for `conflict_check_clean_implies_no_overlap` on a one-element
batch that passes the conflict check. -/
theorem conflict_check_clean_implies_no_overlap_witness :
    check_time_conflicts [exBestA] = [] ∧ no_therapist_overlap [exBestA] :=
  ⟨by decide, conflict_check_clean_implies_no_overlap [exBestA] (by decide)⟩

/-- C2: `bulk_create_sessions` is all-or-nothing around the conflict scan.
If some `(therapist, date)` group, sorted by start time, has an earlier end
strictly past the next start, the call returns zero created sessions with a
non-empty conflict list whose every message names a genuinely overlapping
adjacent pair (therapist, date, both ranges), and the stored rows are
untouched; if no group has such a pair, every assignment of the batch is
inserted and the count is the batch length. -/
theorem bulk_create_blocks_overlaps (db : List SessionRow) (data : List Assignment) :
    ((∃ g ∈ group_sessions data,
        adjacent_overlap_free (sort_by_start g.2) = false) →
      (bulk_create_sessions db data).1.1 = 0 ∧
      (bulk_create_sessions db data).1.2 ≠ [] ∧
      (bulk_create_sessions db data).2 = db ∧
      ∀ msg ∈ (bulk_create_sessions db data).1.2,
        ∃ tid d a b, msg = conflict_msg tid d a b ∧ b.start < a.endt) ∧
    ((∀ g ∈ group_sessions data, adjacent_overlap_free (sort_by_start g.2) = true) →
      bulk_create_sessions db data = ((data.length, []), db ++ data.map to_session_row)) := by
  have hiff : check_time_conflicts data = [] ↔
      ∀ g ∈ group_sessions data, adjacent_overlap_free (sort_by_start g.2) = true := by
    rw [check_time_conflicts, flatMap_eq_nil_iff]
    refine forall_congr' fun g => forall_congr' fun hg => ?_
    rw [adjacent_conflicts_eq_nil g.1.1 g.1.2 (sort_by_start g.2),
      adjacent_overlap_free_iff (sort_by_start g.2)]
  constructor
  · rintro ⟨g, hg, hnch⟩
    have hne : check_time_conflicts data ≠ [] := fun hnil => by
      rw [hiff.1 hnil g hg] at hnch
      exact Bool.noConfusion hnch
    have hbulk : bulk_create_sessions db data = ((0, check_time_conflicts data), db) := by
      rw [bulk_create_sessions]
      rw [if_neg (by simpa [List.isEmpty_iff] using hne)]
    rw [hbulk]
    refine ⟨rfl, hne, rfl, ?_⟩
    intro msg hmsg
    rw [check_time_conflicts, List.mem_flatMap] at hmsg
    obtain ⟨g', hg', hmem⟩ := hmsg
    obtain ⟨a, b, hmsg', hov⟩ := mem_adjacent_conflicts hmem
    exact ⟨g'.1.1, g'.1.2, a, b, hmsg', hov⟩
  · intro hall
    have hnil : check_time_conflicts data = [] := hiff.2 hall
    rw [bulk_create_sessions]
    rw [if_pos (by simp [List.isEmpty_iff, hnil])]

/-- Witness for `bulk_create_blocks_overlaps`: the double-booked example
batch is rejected wholesale, and the clean one-element batch is inserted. -/
theorem bulk_create_blocks_overlaps_witness :
    ((bulk_create_sessions [] [exBestA, exBestB]).1.1 = 0 ∧
      (bulk_create_sessions [] [exBestA, exBestB]).1.2 ≠ [] ∧
      (bulk_create_sessions [] [exBestA, exBestB]).2 = [] ∧
      ∀ msg ∈ (bulk_create_sessions [] [exBestA, exBestB]).1.2,
        ∃ tid d a b, msg = conflict_msg tid d a b ∧ b.start < a.endt) ∧
    bulk_create_sessions [] [exBestA] = ((1, []), [to_session_row exBestA]) :=
  ⟨(bulk_create_blocks_overlaps [] [exBestA, exBestB]).1 (by decide),
    by simpa using (bulk_create_blocks_overlaps [] [exBestA]).2 (by decide)⟩

/-- Each allocation step settles exactly one demand: it grows either the
allocated list or the unallocated list by one entry, never both. -/
theorem alloc_step_counts (w : Nat) (st : AllocState) (s : SessionSlot) :
    (alloc_step w st s).allocated.length + (alloc_step w st s).unallocated.length =
      st.allocated.length + st.unallocated.length + 1 := by
  rw [alloc_step]
  split
  · simp only [List.length_append, List.length_cons, List.length_nil]
    omega
  · dsimp only
    split
    · simp only [List.length_append, List.length_cons, List.length_nil]
      omega
    · simp only [List.length_append, List.length_cons, List.length_nil]
      omega

/-- The allocation loop settles every demand exactly once. -/
theorem alloc_loop_counts (w : Nat) :
    ∀ (ds : List SessionSlot) (st : AllocState),
      (alloc_loop w ds st).allocated.length + (alloc_loop w ds st).unallocated.length =
        st.allocated.length + st.unallocated.length + ds.length := by
  intro ds
  induction ds with
  | nil => intro st; simp [alloc_loop]
  | cons s rest ih =>
    intro st
    rw [alloc_loop, ih, alloc_step_counts]
    simp only [List.length_cons]
    omega

/-- C10: the allocation stage accounts for every demand unit exactly once:
allocated sessions plus unallocated warnings equal the demand count, and
the reported `sessions_created` is the length of the emitted session list. -/
theorem allocation_accounts_every_demand (session_slots : List SessionSlot)
    (therapist_slots : List TherapistSlot) (week_starting : Nat) :
    (allocate_sessions_intelligently session_slots therapist_slots week_starting).sessions_created +
      (allocate_sessions_intelligently session_slots therapist_slots week_starting).warnings.length =
        session_slots.length ∧
    (allocate_sessions_intelligently session_slots therapist_slots week_starting).sessions_created =
      (allocate_sessions_intelligently session_slots therapist_slots week_starting).sessions.length := by
  constructor
  · have h := alloc_loop_counts week_starting session_slots
      { store := therapist_slots
        deptOrder := group_by_dept therapist_slots
        child_daily := fun _ _ => 0
        therapist_daily := fun _ _ => 0
        allocated := []
        unallocated := [] }
    simpa [allocate_sessions_intelligently] using h
  · rfl

/-- Case analysis of one allocation step: either the demand is recorded as
unallocated (no therapists, or no candidate found; only the department
bucket order may additionally change), or the winning candidate of
`find_best_time_slot` is committed with both daily counters bumped at its
key, the load update applied to the store, and the assignment appended. -/
theorem alloc_step_cases (w : Nat) (st : AllocState) (s : SessionSlot) :
    (∃ msg dOrd, alloc_step w st s =
      { store := st.store, deptOrder := dOrd, child_daily := st.child_daily,
        therapist_daily := st.therapist_daily, allocated := st.allocated,
        unallocated := st.unallocated ++ [msg] }) ∨
    ∃ a, find_best_time_slot s
        ((sort_by_fairness st.store ((bucket_find s.department_id st.deptOrder).getD [])).map
          fun i => st.store.getD i default) w st.child_daily st.therapist_daily = some a ∧
      alloc_step w st s =
        { store := update_first_by_id a.therapist_id st.store,
          deptOrder := bucket_update s.department_id
            (sort_by_fairness st.store ((bucket_find s.department_id st.deptOrder).getD []))
            st.deptOrder,
          child_daily := fun c d =>
            if c = s.child_id ∧ d = a.date then st.child_daily c d + 1 else st.child_daily c d,
          therapist_daily := fun t d =>
            if t = a.therapist_id ∧ d = a.date then st.therapist_daily t d + 1
            else st.therapist_daily t d,
          allocated := st.allocated ++ [a],
          unallocated := st.unallocated } := by
  rw [alloc_step]
  split
  · exact Or.inl ⟨_, st.deptOrder, rfl⟩
  · dsimp only
    split
    · rename_i best heq
      exact Or.inr ⟨best, heq, rfl⟩
    · exact Or.inl ⟨_, _, rfl⟩

/-- Number of produced assignments for one child on one date. -/
def count_child (l : List Assignment) (c : Int) (d : Nat) : Nat :=
  (l.filter fun a => decide (a.child_id = c ∧ a.date = d)).length

/-- Number of produced assignments for one therapist on one date. -/
def count_ther (l : List Assignment) (t : Int) (d : Nat) : Nat :=
  (l.filter fun a => decide (a.therapist_id = t ∧ a.date = d)).length

/-- Appending one assignment bumps the child/date tally at its key only. -/
theorem count_child_append (l : List Assignment) (a : Assignment) (c : Int) (d : Nat) :
    count_child (l ++ [a]) c d =
      count_child l c d + if a.child_id = c ∧ a.date = d then 1 else 0 := by
  rw [count_child, count_child, List.filter_append, List.length_append]
  congr 1
  by_cases h : a.child_id = c ∧ a.date = d
  · simp [h]
  · simp [h]

/-- Appending one assignment bumps the therapist/date tally at its key
only. -/
theorem count_ther_append (l : List Assignment) (a : Assignment) (t : Int) (d : Nat) :
    count_ther (l ++ [a]) t d =
      count_ther l t d + if a.therapist_id = t ∧ a.date = d then 1 else 0 := by
  rw [count_ther, count_ther, List.filter_append, List.length_append]
  congr 1
  by_cases h : a.therapist_id = t ∧ a.date = d
  · simp [h]
  · simp [h]

/-- Run invariant for the daily caps: both counters agree with the actual
tallies of the allocated list, and respect the caps of 5 and 8. -/
def CapInv (st : AllocState) : Prop :=
  (∀ c d, count_child st.allocated c d = st.child_daily c d) ∧
  (∀ t d, count_ther st.allocated t d = st.therapist_daily t d) ∧
  (∀ c d, st.child_daily c d ≤ 5) ∧
  (∀ t d, st.therapist_daily t d ≤ 8)

/-- One allocation step preserves the daily-cap invariant: a commitment is
only possible below the caps, and bumps counter and tally together. -/
theorem alloc_step_cap_inv (w : Nat) (st : AllocState) (s : SessionSlot)
    (h : CapInv st) : CapInv (alloc_step w st s) := by
  rcases alloc_step_cases w st s with ⟨msg, dOrd, heq⟩ | ⟨a, hfb, heq⟩
  · rw [heq]
    exact h
  · rw [heq]
    obtain ⟨hc, ht, hc5, ht8⟩ := h
    obtain ⟨-, hchild, -, -, -, day, -, hdate, h5, t, -, -, h8, -⟩ :=
      find_best_time_slot_spec hfb
    refine ⟨?_, ?_, ?_, ?_⟩
    · intro c d
      dsimp only
      rw [count_child_append, hc]
      by_cases hcd : c = s.child_id ∧ d = a.date
      · rw [if_pos ⟨by rw [hchild, hcd.1], hcd.2.symm⟩, if_pos hcd]
      · rw [if_neg hcd, if_neg ?_, Nat.add_zero]
        rintro ⟨h1, h2⟩
        exact hcd ⟨by rw [← h1, hchild], h2.symm⟩
    · intro td' d
      dsimp only
      rw [count_ther_append, ht]
      by_cases hcd : td' = a.therapist_id ∧ d = a.date
      · rw [if_pos ⟨hcd.1.symm, hcd.2.symm⟩, if_pos hcd]
      · rw [if_neg hcd, if_neg ?_, Nat.add_zero]
        rintro ⟨h1, h2⟩
        exact hcd ⟨h1.symm, h2.symm⟩
    · intro c d
      dsimp only
      by_cases hcd : c = s.child_id ∧ d = a.date
      · rw [if_pos hcd, hcd.1, hcd.2]
        omega
      · rw [if_neg hcd]
        exact hc5 c d
    · intro td' d
      dsimp only
      by_cases hcd : td' = a.therapist_id ∧ d = a.date
      · rw [if_pos hcd, hcd.1, hcd.2]
        omega
      · rw [if_neg hcd]
        exact ht8 td' d

/-- The allocation loop preserves the daily-cap invariant. -/
theorem alloc_loop_cap_inv (w : Nat) :
    ∀ (ds : List SessionSlot) (st : AllocState), CapInv st → CapInv (alloc_loop w ds st) := by
  intro ds
  induction ds with
  | nil => intro st h; exact h
  | cons s rest ih => intro st h; exact ih _ (alloc_step_cap_inv w st s h)

/-- C3: over one generation run, the allocation stage never gives a child
more than 5 sessions on a date, nor a therapist more than 8: the loop skips
any day/therapist already at its cap, and each committed assignment bumps
exactly its own per-(child, date) and per-(therapist, date) counters. -/
theorem daily_caps_respected (session_slots : List SessionSlot)
    (therapist_slots : List TherapistSlot) (week_starting : Nat) (c t : Int) (d : Nat) :
    count_child
        (allocate_sessions_intelligently session_slots therapist_slots week_starting).sessions
        c d ≤ 5 ∧
      count_ther
        (allocate_sessions_intelligently session_slots therapist_slots week_starting).sessions
        t d ≤ 8 := by
  have h0 : CapInv
      { store := therapist_slots
        deptOrder := group_by_dept therapist_slots
        child_daily := fun _ _ => 0
        therapist_daily := fun _ _ => 0
        allocated := []
        unallocated := [] } := by
    refine ⟨?_, ?_, ?_, ?_⟩ <;> intro x y <;> simp [count_child, count_ther]
  have hfin := alloc_loop_cap_inv week_starting session_slots _ h0
  obtain ⟨hc, ht, hc5, ht8⟩ := hfin
  constructor
  · rw [show (allocate_sessions_intelligently session_slots therapist_slots
        week_starting).sessions = (alloc_loop week_starting session_slots
          { store := therapist_slots
            deptOrder := group_by_dept therapist_slots
            child_daily := fun _ _ => 0
            therapist_daily := fun _ _ => 0
            allocated := []
            unallocated := [] }).allocated from rfl]
    rw [hc]
    exact hc5 c d
  · rw [show (allocate_sessions_intelligently session_slots therapist_slots
        week_starting).sessions = (alloc_loop week_starting session_slots
          { store := therapist_slots
            deptOrder := group_by_dept therapist_slots
            child_daily := fun _ _ => 0
            therapist_daily := fun _ _ => 0
            allocated := []
            unallocated := [] }).allocated from rfl]
    rw [ht]
    exact ht8 t d

/-- Static data of a therapist slot (identity, department, availability):
everything the load update leaves untouched. -/
def ther_static (t : TherapistSlot) : Int × Int × List (String × List (Nat × Nat)) :=
  (t.therapist_id, t.department_id, t.availability)

/-- The post-commit load update changes no static therapist data. -/
theorem update_first_by_id_static (tid : Int) :
    ∀ l : List TherapistSlot, (update_first_by_id tid l).map ther_static = l.map ther_static := by
  intro l
  induction l with
  | nil => rfl
  | cons t ts ih =>
    rw [update_first_by_id]
    by_cases h : t.therapist_id = tid
    · rw [if_pos h]
      rfl
    · rw [if_neg h, List.map_cons, List.map_cons, ih]

/-- An assignment is supported by the run inputs: one hour long, on a
preferred day of a demand of its child, inside some time-preference window
of that demand (the code takes the child's whole availability list without
day filtering), and inside a window that its therapist lists for that day. -/
def assignment_supported (demands : List SessionSlot) (thers : List TherapistSlot)
    (w : Nat) (a : Assignment) : Prop :=
  a.end_time = a.start_time + 60 ∧
  ∃ s ∈ demands, s.child_id = a.child_id ∧
    ∃ day ∈ s.day_preferences, a.date = get_date_for_day w day ∧
      (∃ cw ∈ s.time_preferences, cw.1 ≤ a.start_time ∧ a.end_time ≤ cw.2) ∧
      ∃ t ∈ thers, t.therapist_id = a.therapist_id ∧
        ∃ tt, dict_find day t.availability = some tt ∧
          ∃ tw ∈ tt, tw.1 ≤ a.start_time ∧ a.end_time ≤ tw.2

/-- A therapist drawn from a store with the original static data either is
out of range (with empty default availability) or matches an original
therapist's identity and availability. -/
theorem store_entry_static {thers : List TherapistSlot} {store : List TherapistSlot}
    (hstatic : store.map ther_static = thers.map ther_static) (i : Nat) :
    (store.getD i default).availability = [] ∨
      ∃ t0 ∈ thers, ther_static t0 = ther_static (store.getD i default) := by
  by_cases hi : i < store.length
  · right
    have hlen : store.length = thers.length := by
      simpa using congrArg List.length hstatic
    have hi' : i < thers.length := hlen ▸ hi
    have hq : (store.map ther_static)[i]? = (thers.map ther_static)[i]? := by rw [hstatic]
    rw [List.getElem?_map, List.getElem?_map] at hq
    have hs1 : store[i]? = some (store.getD i default) := by
      rw [List.getD_eq_getElem?_getD, List.getElem?_eq_getElem hi]
      rfl
    have hs2 : thers[i]? = some (thers.getD i default) := by
      rw [List.getD_eq_getElem?_getD, List.getElem?_eq_getElem hi']
      rfl
    rw [hs1, hs2] at hq
    simp only [Option.map_some'] at hq
    refine ⟨thers.getD i default, ?_, (Option.some.inj hq).symm⟩
    rw [List.getD_eq_getElem?_getD, List.getElem?_eq_getElem hi']
    simp only [Option.getD_some]
    exact List.getElem_mem hi'
  · left
    rw [List.getD_eq_getElem?_getD, List.getElem?_eq_none (by omega)]
    rfl

/-- Commitments of one allocation step stay supported, and the step keeps
the store's static data. -/
theorem alloc_step_supported (demands : List SessionSlot) (thers : List TherapistSlot)
    (w : Nat) (st : AllocState) (s : SessionSlot) (hs : s ∈ demands)
    (hstatic : st.store.map ther_static = thers.map ther_static)
    (hall : ∀ a ∈ st.allocated, assignment_supported demands thers w a) :
    (alloc_step w st s).store.map ther_static = thers.map ther_static ∧
      ∀ a ∈ (alloc_step w st s).allocated, assignment_supported demands thers w a := by
  rcases alloc_step_cases w st s with ⟨msg, dOrd, heq⟩ | ⟨a, hfb, heq⟩
  · rw [heq]
    exact ⟨hstatic, hall⟩
  · rw [heq]
    dsimp only
    constructor
    · rw [update_first_by_id_static]
      exact hstatic
    · intro b hb
      rcases List.mem_append.1 hb with hb' | hb'
      · exact hall b hb'
      · obtain rfl : b = a := List.mem_singleton.1 hb'
        obtain ⟨-, hchild, -, -, hlen, day, hday, hdate, -, t, htmem, htid, -, tt, htt, hts⟩ :=
          find_best_time_slot_spec hfb
        obtain ⟨hlen2, ⟨tw, htw, htwlo, htwhi⟩, ⟨cw, hcw, hcwlo, hcwhi⟩⟩ :=
          find_overlapping_slots_sound hts
        rcases List.mem_map.1 htmem with ⟨i, -, rfl⟩
        rcases store_entry_static hstatic i with hempty | ⟨t0, ht0mem, ht0⟩
        · rw [hempty] at htt
          exact absurd htt (by rw [dict_find]; simp)
        · have hid : t0.therapist_id = (st.store.getD i default).therapist_id :=
            congrArg Prod.fst ht0
          have hav : t0.availability = (st.store.getD i default).availability :=
            congrArg (fun p => p.2.2) ht0
          refine ⟨hlen, s, hs, hchild.symm, day, hday, hdate, ⟨cw, hcw, hcwlo, hcwhi⟩,
            t0, ht0mem, hid.trans htid, tt, ?_, tw, htw, htwlo, htwhi⟩
          rw [hav]
          exact htt

/-- The allocation loop keeps all commitments supported. -/
theorem alloc_loop_supported (demands : List SessionSlot) (thers : List TherapistSlot) (w : Nat) :
    ∀ (ds : List SessionSlot) (st : AllocState), (∀ s ∈ ds, s ∈ demands) →
      st.store.map ther_static = thers.map ther_static →
      (∀ a ∈ st.allocated, assignment_supported demands thers w a) →
      ∀ a ∈ (alloc_loop w ds st).allocated, assignment_supported demands thers w a := by
  intro ds
  induction ds with
  | nil => intro st _ _ hall; exact hall
  | cons s rest ih =>
    intro st hds hstatic hall
    obtain ⟨hst, hall'⟩ := alloc_step_supported demands thers w st s (hds s (by simp)) hstatic hall
    exact ih _ (fun x hx => hds x (List.mem_cons_of_mem s hx)) hst hall'

/-- C4 (amended): every committed assignment is one hour long and lies
within a window the matched therapist lists for the assignment's day AND
within some time-preference window of the matched child's demand — but the
child-side window is drawn from the child's whole availability list, which
`_prepare_session_slots` flattens without day filtering, so it need not
belong to the assignment's own day. -/
theorem assignments_within_matched_windows (session_slots : List SessionSlot)
    (therapist_slots : List TherapistSlot) (week_starting : Nat) :
    ∀ a ∈ (allocate_sessions_intelligently session_slots therapist_slots week_starting).sessions,
      assignment_supported session_slots therapist_slots week_starting a := by
  intro a ha
  exact alloc_loop_supported session_slots therapist_slots week_starting session_slots _
    (fun _ hx => hx) rfl (fun _ hx => absurd hx (List.not_mem_nil _)) a ha

/-- Inverse of the day mapping, for speaking about the day of a produced
date (week start is a Monday at residue 0 mod 7, dates are week + offset). -/
def day_name_of_offset : Nat → String
  | 0 => "Monday"
  | 1 => "Tuesday"
  | 2 => "Wednesday"
  | 3 => "Thursday"
  | 4 => "Friday"
  | 5 => "Saturday"
  | _ => ""

/-- Child for the C4 counterexample: available Monday 08:00-09:00 and
Tuesday 14:00-15:00, one department-1 session needed. -/
def exChildC4 : ChildData :=
  { id := 1, name := "A",
    departments := [{ department_id := 1, department_name := "D", sessions_per_week := 1 }],
    availability := [{ day_of_week := "Monday", start_time := 480, end_time := 540 },
                     { day_of_week := "Tuesday", start_time := 840, end_time := 900 }] }

/-- Therapist for the C4 counterexample: department 1, available Monday
14:00-16:00 only. -/
def exTherC4 : TherapistSlot :=
  { therapist_id := 7, therapist_name := "U", department_id := 1, department_name := "D",
    availability := [("Monday", [(840, 960)])], current_load := 0, fairness_score := 0 }

/-- The assignment the engine produces for `exChildC4` with `exTherC4`:
Monday 14:00-15:00, although the child is only available 14:00-15:00 on
Tuesday. -/
def exBestC4 : Assignment :=
  { child_id := 1, therapist_id := 7, department_id := 1, date := 0,
    start_time := 840, end_time := 900, week_starting := 0, priority_score := 129 }

/-- C4 counterexample: the produced Monday assignment lies in no Monday
availability window of the child — the child's 14:00-15:00 window belongs
to Tuesday, but the demand model drops the day tags of the child's
windows. -/
theorem assignment_outside_child_day_window :
    (allocate_sessions_intelligently (expand_session_slots [exChildC4]) [exTherC4] 0).sessions =
      [exBestC4] ∧
    day_name_of_offset (exBestC4.date - exBestC4.week_starting) = "Monday" ∧
    ¬ ∃ win ∈ exChildC4.availability,
        win.day_of_week = day_name_of_offset (exBestC4.date - exBestC4.week_starting) ∧
        win.start_time ≤ exBestC4.start_time ∧ exBestC4.end_time ≤ win.end_time := by
  refine ⟨by decide, by decide, by decide⟩

/-- Witness for `assignments_within_matched_windows` at the concrete C4
run. -/
theorem assignments_within_matched_windows_witness :
    exBestC4 ∈ (allocate_sessions_intelligently (expand_session_slots [exChildC4])
        [exTherC4] 0).sessions ∧
      assignment_supported (expand_session_slots [exChildC4]) [exTherC4] 0 exBestC4 :=
  ⟨by decide,
    assignments_within_matched_windows (expand_session_slots [exChildC4]) [exTherC4] 0
      exBestC4 (by decide)⟩

/-- Child record expanding to `exDemandA`. -/
def exChildA : ChildData :=
  { id := 1, name := "A",
    departments := [{ department_id := 1, department_name := "D", sessions_per_week := 1 }],
    availability := [{ day_of_week := "Monday", start_time := 540, end_time := 600 }] }

/-- Child record expanding to `exDemandB`. -/
def exChildB : ChildData :=
  { id := 2, name := "B",
    departments := [{ department_id := 1, department_name := "D", sessions_per_week := 1 }],
    availability := [{ day_of_week := "Monday", start_time := 540, end_time := 600 }] }

/-- C7 counterexample: the engine constructor takes no seed — demand order
comes from `random.shuffle` on the process-global PRNG.  Both demand orders
below are permutations of the same expanded demand list (both are reachable
shuffle outcomes of identical constructor inputs, children, and loads), yet
they produce different assignment sets: the child-1 assignment carries
priority score 134 when drawn first and is absent (score 131 instead) when
drawn second.  Hence the output is not a function of any construction
parameter. -/
theorem demand_order_changes_assignments :
    expand_session_slots [exChildA, exChildB] = [exDemandA, exDemandB] ∧
    List.Perm [exDemandB, exDemandA] (expand_session_slots [exChildA, exChildB]) ∧
    exBestA ∈ (allocate_sessions_intelligently [exDemandA, exDemandB] [exTher] 0).sessions ∧
    exBestA ∉ (allocate_sessions_intelligently [exDemandB, exDemandA] [exTher] 0).sessions := by
  refine ⟨by decide, ?_, by decide, by decide⟩
  rw [show expand_session_slots [exChildA, exChildB] = [exDemandA, exDemandB] from by decide]
  exact List.Perm.swap exDemandA exDemandB []

/-- C7 (amended): the run is deterministic given the shuffled demand order:
two runs over the same demand order, the same therapist supply, and the
same week produce identical results — all allocation state is explicit run
state, with no hidden dependence. -/
theorem allocation_deterministic_given_order (d1 d2 : List SessionSlot)
    (t1 t2 : List TherapistSlot) (w1 w2 : Nat)
    (hd : d1 = d2) (ht : t1 = t2) (hw : w1 = w2) :
    allocate_sessions_intelligently d1 t1 w1 = allocate_sessions_intelligently d2 t2 w2 := by
  rw [hd, ht, hw]

/-- Witness for `allocation_deterministic_given_order` at the example
inputs. -/
theorem allocation_deterministic_given_order_witness :
    allocate_sessions_intelligently [exDemandA, exDemandB] [exTher] 0 =
      allocate_sessions_intelligently [exDemandA, exDemandB] [exTher] 0 :=
  allocation_deterministic_given_order [exDemandA, exDemandB] [exDemandA, exDemandB]
    [exTher] [exTher] 0 0 rfl rfl rfl

/-- C8 (amended): the engine's request validation short-circuits through
its checks in this order: (1) sessions already exist (when not
regenerating), (2) empty child list, (3) empty therapist list, (4)
week start not a Monday; each rejection carries exactly its own single
error message, and only when all four pass does validation succeed. -/
theorem request_validation_effective_order (existing : Bool) (w : Nat)
    (cs ts : List Int) (rg : Bool) :
    (rg = false → existing = true →
      validate_generation_request existing w cs ts rg =
        { success := false, sessions_created := 0,
          errors :=
            ["Sessions already exist for this week. Use regenerate_existing=true to overwrite."] }) ∧
    ((rg = true ∨ existing = false) → cs = [] →
      validate_generation_request existing w cs ts rg =
        { success := false, sessions_created := 0, errors := ["No children selected"] }) ∧
    ((rg = true ∨ existing = false) → cs ≠ [] → ts = [] →
      validate_generation_request existing w cs ts rg =
        { success := false, sessions_created := 0, errors := ["No therapists selected"] }) ∧
    ((rg = true ∨ existing = false) → cs ≠ [] → ts ≠ [] → w % 7 ≠ 0 →
      validate_generation_request existing w cs ts rg =
        { success := false, sessions_created := 0, errors := ["Week must start on Monday"] }) ∧
    ((rg = true ∨ existing = false) → cs ≠ [] → ts ≠ [] → w % 7 = 0 →
      validate_generation_request existing w cs ts rg =
        { success := true, sessions_created := 0 }) := by
  refine ⟨?_, ?_, ?_, ?_, ?_⟩
  · intro h1 h2
    subst h1
    subst h2
    rw [validate_generation_request, if_pos ⟨by simp, rfl⟩]
  · intro hcase hcs
    subst hcs
    rcases hcase with h | h <;> subst h <;>
      · rw [validate_generation_request, if_neg (by simp), if_pos (by simp)]
  · intro hcase hcs hts
    subst hts
    rcases hcase with h | h <;> subst h <;>
      · rw [validate_generation_request, if_neg (by simp),
          if_neg (by simpa [List.isEmpty_iff] using hcs), if_pos (by simp)]
  · intro hcase hcs hts hw
    rcases hcase with h | h <;> subst h <;>
      · rw [validate_generation_request, if_neg (by simp),
          if_neg (by simpa [List.isEmpty_iff] using hcs),
          if_neg (by simpa [List.isEmpty_iff] using hts), if_pos hw]
  · intro hcase hcs hts hw
    rcases hcase with h | h <;> subst h <;>
      · rw [validate_generation_request, if_neg (by simp),
          if_neg (by simpa [List.isEmpty_iff] using hcs),
          if_neg (by simpa [List.isEmpty_iff] using hts), if_neg (by simp [hw])]

/-- C8 counterexample: the claimed order is wrong on all three points.  A
non-Monday week with existing sessions is rejected with the
sessions-already-exist error (that check runs first, not after the
structural ones); a non-Monday week with an empty child list is rejected
with the children error (the Monday check is last, not first); and when
both id lists are empty only the children error is reported (the checks
short-circuit instead of failing independently). -/
theorem monday_check_not_first :
    validate_generation_request true 1 [] [] false =
      { success := false, sessions_created := 0,
        errors :=
          ["Sessions already exist for this week. Use regenerate_existing=true to overwrite."] } ∧
    validate_generation_request false 1 [] [1] false =
      { success := false, sessions_created := 0, errors := ["No children selected"] } ∧
    (1 : Nat) % 7 ≠ 0 ∧
    validate_generation_request false 0 [] [] false =
      { success := false, sessions_created := 0, errors := ["No children selected"] } := by
  refine ⟨by decide, by decide, by decide, by decide⟩

/-- Witness for `request_validation_effective_order`, exercising each of
the five branches at concrete inputs. -/
theorem request_validation_effective_order_witness :
    validate_generation_request true 3 [1] [2] false =
      { success := false, sessions_created := 0,
        errors :=
          ["Sessions already exist for this week. Use regenerate_existing=true to overwrite."] } ∧
    validate_generation_request false 3 [] [2] false =
      { success := false, sessions_created := 0, errors := ["No children selected"] } ∧
    validate_generation_request false 3 [1] [] false =
      { success := false, sessions_created := 0, errors := ["No therapists selected"] } ∧
    validate_generation_request false 3 [1] [2] false =
      { success := false, sessions_created := 0, errors := ["Week must start on Monday"] } ∧
    validate_generation_request false 7 [1] [2] false =
      { success := true, sessions_created := 0 } :=
  ⟨(request_validation_effective_order true 3 [1] [2] false).1 rfl rfl,
    (request_validation_effective_order false 3 [] [2] false).2.1 (Or.inr rfl) rfl,
    (request_validation_effective_order false 3 [1] [] false).2.2.1 (Or.inr rfl)
      (by decide) rfl,
    (request_validation_effective_order false 3 [1] [2] false).2.2.2.1 (Or.inr rfl)
      (by decide) (by decide) (by decide),
    (request_validation_effective_order false 7 [1] [2] false).2.2.2.2 (Or.inr rfl)
      (by decide) (by decide) (by decide)⟩

/-- Capacity shortfall makes the capacity validator report invalid: the
insufficient-capacity message lands in its error list. -/
theorem capacity_shortfall_invalid (children_data : List ChildData)
    (therapists_data : List TherapistData)
    (h : (therapists_data.map fun t => calculate_therapist_weekly_capacity t.availability).sum <
      (children_data.map fun child => (child.departments.map (·.sessions_per_week)).sum).sum) :
    (validate_capacity_limits children_data therapists_data).1 = false := by
  rw [validate_capacity_limits]
  dsimp only
  rw [if_pos h]
  simp

/-- A list with a member is not empty. -/
theorem isEmpty_false_of_mem {α : Type} {x : α} {l : List α} (h : x ∈ l) :
    l.isEmpty = false := by
  cases l with
  | nil => exact absurd h (List.not_mem_nil x)
  | cons a as => rfl

/-- A failed capacity check fails the whole input-data validation (as does
any earlier validation failure). -/
theorem input_validation_fails_of_capacity_invalid (children_data : List ChildData)
    (therapists_data : List TherapistData)
    (h : (validate_capacity_limits children_data therapists_data).1 = false) :
    (validate_input_data children_data therapists_data).success = false := by
  rw [validate_input_data]
  dsimp only
  split
  · rfl
  · split
    · rfl
    · split
      · rfl
      · rename_i hcap
        have hcap' : (validate_capacity_limits children_data therapists_data).1 = true := by
          simpa using hcap
        rw [h] at hcap'
        exact Bool.noConfusion hcap'

/-- Reading a tally after an addition: the added key gains the added
amount, every other key is untouched. -/
theorem tally_get_add (k k' n : Int) :
    ∀ m : List (Int × Int),
      tally_get k (tally_add k' n m) =
        if k' = k then tally_get k m + n else tally_get k m := by
  intro m
  induction m with
  | nil =>
    by_cases hk : k' = k
    · simp [tally_add, tally_get, hk]
    · simp [tally_add, tally_get, hk]
  | cons e rest ih =>
    obtain ⟨a, v⟩ := e
    rw [tally_add]
    by_cases ha : a = k'
    · rw [if_pos ha]
      by_cases hk : a = k
      · have hk' : k' = k := ha.symm.trans hk
        rw [tally_get, if_pos hk, if_pos hk', tally_get, if_pos hk]
      · have hk' : ¬ k' = k := fun h => hk (ha.trans h)
        rw [tally_get, if_neg hk, if_neg hk', tally_get, if_neg hk]
    · rw [if_neg ha]
      by_cases hk : a = k
      · have hk' : ¬ k' = k := fun h => ha (hk.trans h.symm)
        rw [tally_get, if_pos hk, if_neg hk', tally_get, if_pos hk]
      · rw [tally_get, if_neg hk, ih,
          show tally_get k ((a, v) :: rest) = tally_get k rest from by
            rw [tally_get, if_neg hk]]

/-- The keys after a tally addition are the old keys plus the added key. -/
theorem mem_keys_tally_add (x k n : Int) :
    ∀ m : List (Int × Int),
      x ∈ (tally_add k n m).map Prod.fst ↔ x = k ∨ x ∈ m.map Prod.fst := by
  intro m
  induction m with
  | nil => simp [tally_add]
  | cons e rest ih =>
    obtain ⟨a, v⟩ := e
    rw [tally_add]
    by_cases ha : a = k
    · rw [if_pos ha]
      subst ha
      simp only [List.map_cons, List.mem_cons]
      tauto
    · rw [if_neg ha]
      simp only [List.map_cons, List.mem_cons, ih]
      tauto

/-- Tally additions keep the keys duplicate-free. -/
theorem tally_add_keys_nodup (k n : Int) :
    ∀ m : List (Int × Int),
      (m.map Prod.fst).Nodup → ((tally_add k n m).map Prod.fst).Nodup := by
  intro m
  induction m with
  | nil =>
    intro _
    simp [tally_add]
  | cons e rest ih =>
    obtain ⟨a, v⟩ := e
    intro hnd
    rw [List.map_cons, List.nodup_cons] at hnd
    obtain ⟨hna, hnd'⟩ := hnd
    rw [tally_add]
    by_cases ha : a = k
    · rw [if_pos ha, List.map_cons, List.nodup_cons]
      exact ⟨hna, hnd'⟩
    · rw [if_neg ha, List.map_cons, List.nodup_cons]
      refine ⟨?_, ih hnd'⟩
      intro hmem
      rcases (mem_keys_tally_add a k n rest).1 hmem with rfl | hmem'
      · exact ha rfl
      · exact hna hmem'

/-- With duplicate-free keys, a tally member is what the tally reads. -/
theorem tally_get_of_mem_nodup {k v : Int} :
    ∀ {m : List (Int × Int)}, (m.map Prod.fst).Nodup → (k, v) ∈ m → tally_get k m = v := by
  intro m
  induction m with
  | nil =>
    intro _ h
    exact absurd h (List.not_mem_nil _)
  | cons e rest ih =>
    obtain ⟨a, w⟩ := e
    intro hnd hmem
    rw [List.map_cons, List.nodup_cons] at hnd
    rcases List.mem_cons.1 hmem with heq | hmem'
    · injection heq with h1 h2
      subst h1
      subst h2
      rw [tally_get, if_pos rfl]
    · by_cases ha : a = k
      · exfalso
        subst ha
        exact hnd.1 (List.mem_map.2 ⟨(a, v), hmem', rfl⟩)
      · rw [tally_get, if_neg ha]
        exact ih hnd.2 hmem'

/-- Total weekly sessions demanded of one department across all children
(the semantic reading of the `sessions_by_department` tally). -/
def dept_sessions_needed (children_data : List ChildData) (k : Int) : Int :=
  (children_data.map fun child =>
    ((child.departments.filter fun d => decide (d.department_id = k)).map
      (·.sessions_per_week)).sum).sum

/-- Total weekly capacity of one department across all therapists (the
semantic reading of the `therapist_capacity_by_dept` tally). -/
def dept_available_capacity (therapists_data : List TherapistData) (k : Int) : Int :=
  ((therapists_data.filter fun t => decide (t.department_id = k)).map fun t =>
    calculate_therapist_weekly_capacity t.availability).sum

/-- Folding one child's department needs adds exactly that child's demand
for each key. -/
theorem tally_get_dept_foldl (k : Int) :
    ∀ (depts : List DeptNeed) (m : List (Int × Int)),
      tally_get k
          (depts.foldl (fun m d => tally_add d.department_id d.sessions_per_week m) m) =
        tally_get k m +
          ((depts.filter fun d => decide (d.department_id = k)).map
            (·.sessions_per_week)).sum := by
  intro depts
  induction depts with
  | nil =>
    intro m
    simp
  | cons d rest ih =>
    intro m
    rw [List.foldl_cons, ih, tally_get_add, List.filter_cons]
    by_cases hd : d.department_id = k
    · rw [if_pos hd, if_pos (by simp [hd])]
      simp only [List.map_cons, List.sum_cons]
      omega
    · rw [if_neg hd, if_neg (by simp [hd])]

/-- The demand tally reads back as the per-department demand sum. -/
theorem tally_get_sessions_foldl (k : Int) :
    ∀ (children : List ChildData) (m : List (Int × Int)),
      tally_get k
          (children.foldl
            (fun m c =>
              c.departments.foldl (fun m d => tally_add d.department_id d.sessions_per_week m) m)
            m) =
        tally_get k m + dept_sessions_needed children k := by
  intro children
  induction children with
  | nil =>
    intro m
    simp [dept_sessions_needed]
  | cons c rest ih =>
    intro m
    rw [List.foldl_cons, ih, tally_get_dept_foldl]
    simp only [dept_sessions_needed, List.map_cons, List.sum_cons]
    omega

/-- The `sessions_by_department` tally equals the per-department demand. -/
theorem sessions_by_department_get (children_data : List ChildData) (k : Int) :
    tally_get k (sessions_by_department children_data) =
      dept_sessions_needed children_data k := by
  rw [sessions_by_department, tally_get_sessions_foldl, tally_get]
  omega

/-- The capacity tally reads back as the per-department capacity sum. -/
theorem tally_get_capacity_foldl (k : Int) :
    ∀ (ts : List TherapistData) (m : List (Int × Int)),
      tally_get k
          (ts.foldl
            (fun m t => tally_add t.department_id (calculate_therapist_weekly_capacity t.availability) m)
            m) =
        tally_get k m + dept_available_capacity ts k := by
  intro ts
  induction ts with
  | nil =>
    intro m
    simp [dept_available_capacity]
  | cons t rest ih =>
    intro m
    have hsplit : dept_available_capacity (t :: rest) k =
        (if t.department_id = k then calculate_therapist_weekly_capacity t.availability else 0) +
          dept_available_capacity rest k := by
      rw [dept_available_capacity, dept_available_capacity, List.filter_cons]
      by_cases ht : t.department_id = k
      · rw [if_pos (by simp [ht]), if_pos ht, List.map_cons, List.sum_cons]
      · rw [if_neg (by simp [ht]), if_neg ht]
        omega
    rw [List.foldl_cons, ih, tally_get_add, hsplit]
    by_cases ht : t.department_id = k
    · rw [if_pos ht, if_pos ht]
      omega
    · rw [if_neg ht, if_neg ht]
      omega

/-- The `therapist_capacity_by_dept` tally equals the per-department
capacity. -/
theorem therapist_capacity_by_dept_get (therapists_data : List TherapistData) (k : Int) :
    tally_get k (therapist_capacity_by_dept therapists_data) =
      dept_available_capacity therapists_data k := by
  rw [therapist_capacity_by_dept, tally_get_capacity_foldl, tally_get]
  omega

/-- A key appears after folding one child's needs exactly when it was
already present or that child lists the department. -/
theorem mem_keys_dept_foldl (k : Int) :
    ∀ (depts : List DeptNeed) (m : List (Int × Int)),
      k ∈ ((depts.foldl (fun m d => tally_add d.department_id d.sessions_per_week m) m).map
          Prod.fst) ↔
        k ∈ m.map Prod.fst ∨ ∃ d ∈ depts, d.department_id = k := by
  intro depts
  induction depts with
  | nil =>
    intro m
    simp
  | cons d rest ih =>
    intro m
    rw [List.foldl_cons, ih, mem_keys_tally_add]
    simp only [List.mem_cons]
    constructor
    · rintro ((h | h) | ⟨d', hd', hk⟩)
      · exact Or.inr ⟨d, Or.inl rfl, h.symm⟩
      · exact Or.inl h
      · exact Or.inr ⟨d', Or.inr hd', hk⟩
    · rintro (h | ⟨d', (rfl | hd'), hk⟩)
      · exact Or.inl (Or.inr h)
      · exact Or.inl (Or.inl hk.symm)
      · exact Or.inr ⟨d', hd', hk⟩

/-- A department key is tallied exactly when some child lists it. -/
theorem mem_keys_sessions_by_department (children_data : List ChildData) (k : Int) :
    k ∈ (sessions_by_department children_data).map Prod.fst ↔
      ∃ c ∈ children_data, ∃ d ∈ c.departments, d.department_id = k := by
  rw [sessions_by_department]
  have hgen : ∀ (children : List ChildData) (m : List (Int × Int)),
      k ∈ ((children.foldl
          (fun m c =>
            c.departments.foldl (fun m d => tally_add d.department_id d.sessions_per_week m) m)
          m).map Prod.fst) ↔
        k ∈ m.map Prod.fst ∨ ∃ c ∈ children, ∃ d ∈ c.departments, d.department_id = k := by
    intro children
    induction children with
    | nil =>
      intro m
      simp
    | cons c rest ih =>
      intro m
      rw [List.foldl_cons, ih, mem_keys_dept_foldl]
      simp only [List.mem_cons]
      constructor
      · rintro ((h | ⟨d, hd, hk⟩) | ⟨c', hc', hrest⟩)
        · exact Or.inl h
        · exact Or.inr ⟨c, Or.inl rfl, d, hd, hk⟩
        · exact Or.inr ⟨c', Or.inr hc', hrest⟩
      · rintro (h | ⟨c', (rfl | hc'), hrest⟩)
        · exact Or.inl (Or.inl h)
        · exact Or.inl (Or.inr hrest)
        · exact Or.inr ⟨c', hc', hrest⟩
  rw [hgen]
  simp

/-- The demand tally's keys are duplicate-free. -/
theorem sessions_by_department_keys_nodup (children_data : List ChildData) :
    ((sessions_by_department children_data).map Prod.fst).Nodup := by
  rw [sessions_by_department]
  have hinner : ∀ (depts : List DeptNeed) (m : List (Int × Int)),
      (m.map Prod.fst).Nodup →
      (((depts.foldl (fun m d => tally_add d.department_id d.sessions_per_week m) m).map
        Prod.fst)).Nodup := by
    intro depts
    induction depts with
    | nil => intro m h; exact h
    | cons d rest ih =>
      intro m h
      rw [List.foldl_cons]
      exact ih _ (tally_add_keys_nodup _ _ m h)
  have hgen : ∀ (children : List ChildData) (m : List (Int × Int)),
      (m.map Prod.fst).Nodup →
      (((children.foldl
          (fun m c =>
            c.departments.foldl (fun m d => tally_add d.department_id d.sessions_per_week m) m)
          m).map Prod.fst)).Nodup := by
    intro children
    induction children with
    | nil => intro m h; exact h
    | cons c rest ih =>
      intro m h
      rw [List.foldl_cons]
      exact ih _ (hinner c.departments m h)
  exact hgen children_data [] (by simp)

/-- A per-department shortfall (a demanded department whose demand exceeds
its capacity) makes the capacity validator report invalid. -/
theorem dept_shortfall_invalid (children_data : List ChildData)
    (therapists_data : List TherapistData) (k : Int)
    (hdem : ∃ c ∈ children_data, ∃ d ∈ c.departments, d.department_id = k)
    (hshort : dept_available_capacity therapists_data k <
      dept_sessions_needed children_data k) :
    (validate_capacity_limits children_data therapists_data).1 = false := by
  have hkey : k ∈ (sessions_by_department children_data).map Prod.fst :=
    (mem_keys_sessions_by_department children_data k).2 hdem
  obtain ⟨p, hp, hpk⟩ := List.mem_map.1 hkey
  have hpmem : (k, p.2) ∈ sessions_by_department children_data := by
    rw [← hpk]
    exact hp
  have hv : tally_get k (sessions_by_department children_data) = p.2 :=
    tally_get_of_mem_nodup (sessions_by_department_keys_nodup children_data) hpmem
  have hneed : p.2 = dept_sessions_needed children_data k := by
    rw [← hv, sessions_by_department_get]
  have hcond : tally_get p.1 (therapist_capacity_by_dept therapists_data) < p.2 := by
    rw [hpk, therapist_capacity_by_dept_get, hneed]
    exact hshort
  have hmem :
      department_shortfall_msg p.1 p.2
          (tally_get p.1 (therapist_capacity_by_dept therapists_data)) ∈
        (sessions_by_department children_data).flatMap fun p =>
          let available_capacity := tally_get p.1 (therapist_capacity_by_dept therapists_data)
          if available_capacity < p.2 then [department_shortfall_msg p.1 p.2 available_capacity]
          else [] := by
    refine List.mem_flatMap.2 ⟨p, hp, ?_⟩
    dsimp only
    rw [if_pos hcond]
    exact List.mem_singleton.2 rfl
  rw [validate_capacity_limits]
  dsimp only
  exact isEmpty_false_of_mem (List.mem_append_right _ hmem)

/-- When the capacity check passes, every message it hands back (the run's
eventual warnings) is a high-utilization message for a department demanded
above 80% of its capacity but not above it. -/
theorem capacity_messages_of_valid (children_data : List ChildData)
    (therapists_data : List TherapistData)
    (hpass : (validate_capacity_limits children_data therapists_data).1 = true) :
    ∀ msg ∈ (validate_capacity_limits children_data therapists_data).2,
      ∃ dept needed avail, msg = high_utilization_msg dept needed avail ∧
        ¬ avail < needed ∧ 4 * avail < 5 * needed := by
  intro msg hmsg
  rw [validate_capacity_limits] at hpass hmsg
  dsimp only at hpass hmsg
  have hE := List.isEmpty_iff.1 hpass
  rw [hE, List.nil_append] at hmsg
  obtain ⟨p, hp, hin⟩ := List.mem_flatMap.1 hmsg
  by_cases hc : ¬ tally_get p.1 (therapist_capacity_by_dept therapists_data) < p.2 ∧
      4 * tally_get p.1 (therapist_capacity_by_dept therapists_data) < 5 * p.2
  · rw [if_pos hc] at hin
    exact ⟨p.1, p.2, tally_get p.1 (therapist_capacity_by_dept therapists_data),
      List.mem_singleton.1 hin, hc.1, hc.2⟩
  · rw [if_neg hc] at hin
    exact absurd hin (List.not_mem_nil _)

/-- C9 (amended): demand exceeding supply is fatal, not a warning — both
when the computed total demand exceeds the computed total capacity and when
any demanded department's demand exceeds that department's capacity,
`_validate_input_data` fails the run (whatever earlier check fires); and
when the capacity check passes, the messages it returns — which a
successful run surfaces as warnings — are exactly the non-fatal
high-utilization (over 80%) messages. -/
theorem capacity_shortfall_is_fatal (children_data : List ChildData)
    (therapists_data : List TherapistData) :
    ((therapists_data.map fun t => calculate_therapist_weekly_capacity t.availability).sum <
        (children_data.map fun child => (child.departments.map (·.sessions_per_week)).sum).sum →
      (validate_input_data children_data therapists_data).success = false) ∧
    (∀ k : Int, (∃ c ∈ children_data, ∃ d ∈ c.departments, d.department_id = k) →
      dept_available_capacity therapists_data k < dept_sessions_needed children_data k →
      (validate_input_data children_data therapists_data).success = false) ∧
    ((validate_capacity_limits children_data therapists_data).1 = true →
      ∀ msg ∈ (validate_capacity_limits children_data therapists_data).2,
        ∃ dept needed avail, msg = high_utilization_msg dept needed avail ∧
          ¬ avail < needed ∧ 4 * avail < 5 * needed) :=
  ⟨fun h =>
    input_validation_fails_of_capacity_invalid children_data therapists_data
      (capacity_shortfall_invalid children_data therapists_data h),
   fun k hdem hshort =>
    input_validation_fails_of_capacity_invalid children_data therapists_data
      (dept_shortfall_invalid children_data therapists_data k hdem hshort),
   capacity_messages_of_valid children_data therapists_data⟩

/-- Child for the C9 examples: needs 20 department-1 sessions per week,
valid availability Monday 08:00-10:00. -/
def exChildC9 : ChildData :=
  { id := 1, name := "A",
    departments := [{ department_id := 1, department_name := "D", sessions_per_week := 20 }],
    availability := [{ day_of_week := "Monday", start_time := 480, end_time := 600 }] }

/-- Therapist for the C9 witness: valid two-hour Monday availability, for a
weekly capacity of `int(2 * 0.8) = 1` session. -/
def exTherC9 : TherapistData :=
  { id := 3, name := "T", department_id := 1, department_name := "D",
    availability := [{ day_of_week := "Monday", start_time := 480, end_time := 600 }] }

/-- High-capacity department-2 therapist for the C9 witness: thirteen valid
two-hour entries give `int(26 * 0.8) = 20` weekly sessions. -/
def exTherBig : TherapistData :=
  { id := 9, name := "W", department_id := 2, department_name := "E",
    availability :=
      List.replicate 13 { day_of_week := "Monday", start_time := 480, end_time := 600 } }

/-- Child for the high-utilization part of the C9 witness: 17 department-2
sessions against a capacity of 20 (over 80%, under 100%). -/
def exChildC9b : ChildData :=
  { id := 2, name := "B",
    departments := [{ department_id := 2, department_name := "E", sessions_per_week := 17 }],
    availability := [{ day_of_week := "Monday", start_time := 480, end_time := 600 }] }

/-- Therapist for the C9 counterexample: no availability windows at all. -/
def exTherNoAvail : TherapistData :=
  { id := 5, name := "V", department_id := 1, department_name := "D", availability := [] }

/-- C9 counterexample: with the only therapist of the demanded department
having zero availability windows, the run fails at data validation with an
error — it does not succeed with unallocated-session warnings as claimed
(and a capacity shortfall likewise produces errors, not warnings). -/
theorem zero_availability_fails_validation :
    (validate_input_data [exChildC9] [exTherNoAvail]).success = false ∧
    (validate_input_data [exChildC9] [exTherNoAvail]).errors =
      ["V: No availability schedule set"] ∧
    (validate_input_data [exChildC9] [exTherNoAvail]).warnings = [] := by
  refine ⟨by decide, by decide, by decide⟩

/-- Witness for `capacity_shortfall_is_fatal`, exercising all three parts:
an overall shortfall (20 demanded, capacity 1) fails the run; a
department-only shortfall (department 1 holds 1 capacity for 20 demanded
while total capacity 21 covers the total demand of 20) fails the run; and a
passing check (17 demanded of capacity 20) returns exactly one
high-utilization warning message. -/
theorem capacity_shortfall_is_fatal_witness :
    (([exTherC9].map fun t => calculate_therapist_weekly_capacity t.availability).sum <
      ([exChildC9].map fun child => (child.departments.map (·.sessions_per_week)).sum).sum) ∧
    (validate_input_data [exChildC9] [exTherC9]).success = false ∧
    dept_available_capacity [exTherC9, exTherBig] 1 < dept_sessions_needed [exChildC9] 1 ∧
    ¬ (([exTherC9, exTherBig].map fun t =>
          calculate_therapist_weekly_capacity t.availability).sum <
        ([exChildC9].map fun child => (child.departments.map (·.sessions_per_week)).sum).sum) ∧
    (validate_input_data [exChildC9] [exTherC9, exTherBig]).success = false ∧
    (validate_capacity_limits [exChildC9b] [exTherBig]).1 = true ∧
    (validate_capacity_limits [exChildC9b] [exTherBig]).2 = [high_utilization_msg 2 17 20] ∧
    ∃ dept needed avail, high_utilization_msg 2 17 20 = high_utilization_msg dept needed avail ∧
      ¬ avail < needed ∧ 4 * avail < 5 * needed :=
  ⟨by decide,
   (capacity_shortfall_is_fatal [exChildC9] [exTherC9]).1 (by decide),
   by decide,
   by decide,
   (capacity_shortfall_is_fatal [exChildC9] [exTherC9, exTherBig]).2.1 1 (by decide) (by decide),
   by decide,
   by decide,
   (capacity_shortfall_is_fatal [exChildC9b] [exTherBig]).2.2 (by decide)
     (high_utilization_msg 2 17 20) (by decide)⟩
